import Mathlib

/-!
Verification development for the protosort repository (Go).

The Go sources are shallowly embedded: Go strings become `List Char`
(all inputs considered are ASCII, so byte indexing and char indexing
coincide), the scanner's cursor becomes a `Nat`, Go maps become
association lists folded in insertion order, and Go's panicking string
slice `s[a:b]` becomes an `Option`-valued operation so that a runtime
panic is an explicit, distinguishable outcome.  Loops are written with
an explicit fuel argument equal to `length + 1` so that every
definition is structurally recursive and evaluates inside the kernel.
-/

namespace Protosort

/-- Strings are modelled as lists of characters. -/
abbrev Str := List Char

/-- Coerce a Lean string literal into the model. -/
def strLit (s : String) : Str := s.data

/-- Go `strings.HasPrefix s p`. -/
def goHasPrefix : Str → Str → Bool
  | _, [] => true
  | [], _ :: _ => false
  | c :: cs, p :: ps => c = p && goHasPrefix cs ps

/-- Characters treated as white space by Go `strings.TrimSpace`
(ASCII subset of `unicode.IsSpace`). -/
def isGoSpace (c : Char) : Bool :=
  c = ' ' || c = '\t' || c = '\n' || c = '\r' || c = '\x0b' || c = '\x0c'

/-- Trim characters satisfying `p` from the front. -/
def goTrimLeftP (p : Char → Bool) : Str → Str
  | [] => []
  | c :: cs => if p c then goTrimLeftP p cs else c :: cs

/-- Trim characters satisfying `p` from the back. -/
def goTrimRightP (p : Char → Bool) (s : Str) : Str :=
  (goTrimLeftP p s.reverse).reverse

/-- Go `strings.TrimSpace`. -/
def goTrimSpace (s : Str) : Str :=
  goTrimRightP isGoSpace (goTrimLeftP isGoSpace s)

/-- Go `strings.TrimLeft s cutset`. -/
def goTrimLeftCut (s : Str) (cutset : Str) : Str :=
  goTrimLeftP (fun c => cutset.contains c) s

/-- Go `strings.TrimRight s cutset`. -/
def goTrimRightCut (s : Str) (cutset : Str) : Str :=
  goTrimRightP (fun c => cutset.contains c) s

/-- Go `strings.Trim s cutset`. -/
def goTrimCut (s : Str) (cutset : Str) : Str :=
  goTrimRightCut (goTrimLeftCut s cutset) cutset

/-- Go `strings.Split s "\n"`. -/
def goSplitNL : Str → List Str
  | [] => [[]]
  | c :: cs =>
      if c = '\n' then [] :: goSplitNL cs
      else
        match goSplitNL cs with
        | [] => [[c]]
        | l :: ls => (c :: l) :: ls

/-- Go `strings.Join parts sep` restricted to a newline separator. -/
def goJoinNL : List Str → Str
  | [] => []
  | [l] => l
  | l :: ls => l ++ '\n' :: goJoinNL ls

/-- Go `strings.Contains s sub`. -/
def goContains : Str → Str → Bool
  | s, sub =>
    match s with
    | [] => goHasPrefix [] sub
    | _ :: cs => goHasPrefix s sub || goContains cs sub

/-- Go `strings.IndexByte`; `none` plays the role of Go's `-1`. -/
def goIndexByte : Str → Char → Option Nat
  | [], _ => none
  | c :: cs, b =>
      if c = b then some 0
      else match goIndexByte cs b with
        | some i => some (i + 1)
        | none => none

/-- Go `strings.LastIndexByte`; `none` plays the role of Go's `-1`. -/
def goLastIndexByte (s : Str) (b : Char) : Option Nat :=
  match goIndexByte s.reverse b with
  | some i => some (s.length - 1 - i)
  | none => none

/-- Go `strings.Count s (string c)` for a one-character substring. -/
def goCountChar (s : Str) (b : Char) : Nat :=
  s.countP (fun c => c = b)

/-- Go `strings.HasSuffix`. -/
def goHasSuffix (s suf : Str) : Bool :=
  goHasPrefix s.reverse suf.reverse

/-- Bytewise `<` on Go strings (ASCII lexicographic order; character
codes are compared as naturals). -/
def lexLt : Str → Str → Bool
  | [], [] => false
  | [], _ :: _ => true
  | _ :: _, [] => false
  | a :: as, b :: bs =>
      if a.toNat < b.toNat then true
      else if b.toNat < a.toNat then false
      else lexLt as bs

/-- The contiguous range `c[a:b]` without the bounds check (used where
the Go code provably stays in bounds). -/
def extractRange (c : Str) (a b : Nat) : Str :=
  (c.drop a).take (b - a)

/-- Go string slicing `c[a:b]`: `none` models the runtime panic
`slice bounds out of range` raised when `¬ (a ≤ b ∧ b ≤ len)`. -/
def goSlice (c : Str) (a b : Nat) : Option Str :=
  if a ≤ b ∧ b ≤ c.length then some (extractRange c a b) else none

/-- Outcome of running a Go function: a normal return, a runtime
panic, or fuel exhaustion (an artifact of the embedding, never
reached by the fuel bounds used below). -/
inductive GoOutcome (α : Type) : Type where
  | ret (a : α)
  | panic
  | outOfFuel
deriving DecidableEq

deriving instance DecidableEq for Except

/-- Monadic bind for `GoOutcome`. -/
def GoOutcome.bind {α β : Type} : GoOutcome α → (α → GoOutcome β) → GoOutcome β
  | .ret a, f => f a
  | .panic, _ => .panic
  | .outOfFuel, _ => .outOfFuel

/-! ## Data model (Go file `types.go`) -/

/-- Go `BlockKind`: the type of a top-level proto element.  Constructor
names carry a `Kw` suffix; the Go constants are `BlockSyntax`,
`BlockPackage`, ..., `BlockComment`. -/
inductive BlockKind : Type where
  | syntaxKw
  | packageKw
  | optionKw
  | importKw
  | messageKw
  | enumKw
  | serviceKw
  | extendKw
  | commentKw
deriving DecidableEq

/-- Go `BlockKind.String()`. -/
def BlockKind.str : BlockKind → Str
  | .syntaxKw => strLit "syntax"
  | .packageKw => strLit "package"
  | .optionKw => strLit "option"
  | .importKw => strLit "import"
  | .messageKw => strLit "message"
  | .enumKw => strLit "enum"
  | .serviceKw => strLit "service"
  | .extendKw => strLit "extend"
  | .commentKw => strLit "comment"

/-- Go `Section`: which output section a block belongs to.  The first
constructor is the Go zero value `SectionHeader`. -/
inductive Section : Type where
  | header
  | service
  | requestResponse
  | core
  | helper
  | unreferenced
deriving DecidableEq

/-- Go `RPC`: an RPC method in a service. -/
structure RPC where
  name : Str
  requestType : Str
  responseType : Str
deriving DecidableEq

/-- Go `Block`: a top-level element of a proto file.  Default field
values are the Go zero values. -/
structure Block where
  kind : BlockKind
  name : Str := []
  comments : Str := []
  declText : Str := []
  sect : Section := .header
  rpcs : List RPC := []
  consumer : Str := []
deriving DecidableEq

/-- Go `Options`: configuration for sorting (only the fields the core
pipeline reads are ever consulted; all are embedded). -/
structure Options where
  write : Bool := false
  check : Bool := false
  diff : Bool := false
  verify : Bool := false
  protocPath : Str := []
  protoPaths : List Str := []
  sharedOrder : Str := []
  sortRPCs : Str := []
  preserveDividers : Bool := false
  stripCommented : Bool := false
  dryRun : Bool := false
  verbose : Bool := false
  quiet : Bool := false
  recursive : Bool := false
  annotate : Bool := false
  sectionHeaders : Bool := false
  configFile : Str := []
deriving DecidableEq

/-! ## Scanner (Go file `scanner.go`)

The scanner state is the fixed content `c : Str` together with a
cursor `pos : Nat`.  Each Go loop becomes a fuel-indexed structural
recursion; every wrapper passes `c.length + 1` fuel, which is enough
because every loop iteration advances the cursor by at least one. -/

/-- Go `scanner.atEnd`. -/
def atEnd (c : Str) (pos : Nat) : Bool := pos ≥ c.length

/-- Go `scanner.peek`: the byte at the cursor, or 0 at the end. -/
def peek (c : Str) (pos : Nat) : Char :=
  if h : pos < c.length then c.get ⟨pos, h⟩ else Char.ofNat 0

/-- Go `scanner.peekAt`. -/
def peekAt (c : Str) (pos offset : Nat) : Char := peek c (pos + offset)

/-- Loop body of Go `skipToEndOfLine`. -/
def skipToEndOfLineAux : Nat → Str → Nat → Nat
  | 0, _, pos => pos
  | fuel + 1, c, pos =>
      if pos < c.length then
        if peek c pos ≠ '\n' then skipToEndOfLineAux fuel c (pos + 1)
        else pos + 1
      else pos

/-- Go `skipToEndOfLine`: advance past the next newline (consuming
it) or to the end of input. -/
def skipToEndOfLine (c : Str) (pos : Nat) : Nat :=
  skipToEndOfLineAux (c.length + 1) c pos

/-- Loop body of Go `skipBlockComment` (after the leading 2 bytes). -/
def skipBlockCommentAux : Nat → Str → Nat → Nat
  | 0, _, pos => pos
  | fuel + 1, c, pos =>
      if pos < c.length then
        if peek c pos = '*' ∧ peekAt c pos 1 = '/' then pos + 2
        else skipBlockCommentAux fuel c (pos + 1)
      else pos

/-- Go `skipBlockComment`: skip the two characters of the opening
delimiter, then advance past the closing delimiter or to the end. -/
def skipBlockComment (c : Str) (pos : Nat) : Nat :=
  skipBlockCommentAux (c.length + 1) c (pos + 2)

/-- Loop body of Go `skipString` (after the opening quote).  On a
backslash the cursor jumps by two, which can push it one past the end
of the input. -/
def skipStringAux : Nat → Str → Char → Nat → Nat
  | 0, _, _, pos => pos
  | fuel + 1, c, quote, pos =>
      if pos < c.length then
        if peek c pos = '\\' then skipStringAux fuel c quote (pos + 2)
        else if peek c pos = quote then pos + 1
        else skipStringAux fuel c quote (pos + 1)
      else pos

/-- Go `skipString`. -/
def skipString (c : Str) (quote : Char) (pos : Nat) : Nat :=
  skipStringAux (c.length + 1) c quote (pos + 1)

/-- Go `skipOneToken`. -/
def skipOneToken (c : Str) (pos : Nat) : Nat :=
  let ch := peek c pos
  if ch = '"' ∨ ch = '\'' then skipString c ch pos
  else if ch = '/' ∧ peekAt c pos 1 = '/' then skipToEndOfLine c pos
  else if ch = '/' ∧ peekAt c pos 1 = '*' then skipBlockComment c pos
  else pos + 1

/-- Loop body of Go `readUntilSemicolon`. -/
def readUntilSemicolonAux : Nat → Str → Nat → Nat
  | 0, _, pos => pos
  | fuel + 1, c, pos =>
      if pos < c.length then
        if peek c pos = ';' then pos + 1
        else readUntilSemicolonAux fuel c (skipOneToken c pos)
      else pos

/-- Go `readUntilSemicolon`. -/
def readUntilSemicolon (c : Str) (pos : Nat) : Nat :=
  readUntilSemicolonAux (c.length + 1) c pos

/-- Loop body of Go `readUntilSemicolonWithBraces`; `depth` is a Go
`int`, so it may go negative. -/
def readUntilSemicolonWithBracesAux : Nat → Str → Int → Nat → Nat
  | 0, _, _, pos => pos
  | fuel + 1, c, depth, pos =>
      if pos < c.length then
        let ch := peek c pos
        if ch = '"' ∨ ch = '\'' then
          readUntilSemicolonWithBracesAux fuel c depth (skipString c ch pos)
        else if ch = '/' ∧ peekAt c pos 1 = '/' then
          readUntilSemicolonWithBracesAux fuel c depth (skipToEndOfLine c pos)
        else if ch = '/' ∧ peekAt c pos 1 = '*' then
          readUntilSemicolonWithBracesAux fuel c depth (skipBlockComment c pos)
        else if ch = '\x7b' then
          readUntilSemicolonWithBracesAux fuel c (depth + 1) (pos + 1)
        else if ch = '\x7d' then
          readUntilSemicolonWithBracesAux fuel c (depth - 1) (pos + 1)
        else if ch = ';' ∧ depth ≤ 0 then pos + 1
        else readUntilSemicolonWithBracesAux fuel c depth (pos + 1)
      else pos

/-- Go `readUntilSemicolonWithBraces`. -/
def readUntilSemicolonWithBraces (c : Str) (pos : Nat) : Nat :=
  readUntilSemicolonWithBracesAux (c.length + 1) c 0 pos

/-- Loop body of Go `readBracedBlock`. -/
def readBracedBlockAux : Nat → Str → Int → Nat → Nat
  | 0, _, _, pos => pos
  | fuel + 1, c, depth, pos =>
      if pos < c.length then
        let ch := peek c pos
        if ch = '"' ∨ ch = '\'' then
          readBracedBlockAux fuel c depth (skipString c ch pos)
        else if ch = '/' ∧ peekAt c pos 1 = '/' then
          readBracedBlockAux fuel c depth (skipToEndOfLine c pos)
        else if ch = '/' ∧ peekAt c pos 1 = '*' then
          readBracedBlockAux fuel c depth (skipBlockComment c pos)
        else if ch = '\x7b' then
          readBracedBlockAux fuel c (depth + 1) (pos + 1)
        else if ch = '\x7d' then
          if depth - 1 = 0 then pos + 1
          else readBracedBlockAux fuel c (depth - 1) (pos + 1)
        else readBracedBlockAux fuel c depth (pos + 1)
      else pos

/-- Go `readBracedBlock`: read a brace-delimited declaration until the
matching closing brace; at end of input it simply stops (no error). -/
def readBracedBlock (c : Str) (pos : Nat) : Nat :=
  readBracedBlockAux (c.length + 1) c 0 pos

/-- Loop body of Go `collectComments`, returning only the final
cursor.  The Go builder appends exactly the consumed bytes, so the
collected text is the contiguous range between entry and exit
cursor. -/
def collectCommentsAux : Nat → Str → Nat → Nat
  | 0, _, pos => pos
  | fuel + 1, c, pos =>
      if pos < c.length then
        let ch := peek c pos
        if ch = ' ' ∨ ch = '\t' ∨ ch = '\r' ∨ ch = '\n' then
          collectCommentsAux fuel c (pos + 1)
        else if ch = '/' ∧ peekAt c pos 1 = '/' then
          collectCommentsAux fuel c (skipToEndOfLine c pos)
        else if ch = '/' ∧ peekAt c pos 1 = '*' then
          collectCommentsAux fuel c (skipBlockComment c pos)
        else pos
      else pos

/-- Go `collectComments`: the collected comment text and the cursor
after it. -/
def collectComments (c : Str) (pos : Nat) : Str × Nat :=
  let p := collectCommentsAux (c.length + 1) c pos
  (extractRange c pos p, p)

/-- Loop of Go `consumeTrailingComment` that skips horizontal white
space. -/
def skipHorizAux : Nat → Str → Nat → Nat
  | 0, _, pos => pos
  | fuel + 1, c, pos =>
      if pos < c.length ∧ (peek c pos = ' ' ∨ peek c pos = '\t') then
        skipHorizAux fuel c (pos + 1)
      else pos

/-- Go `consumeTrailingComment`: absorb an inline comment after a
declaration terminator.  Note that `skipToEndOfLine` consumes (and the
returned slice includes) the terminating newline, although the Go
comment on this function asserts otherwise. -/
def consumeTrailingComment (c : Str) (pos : Nat) : Str × Nat :=
  let p := skipHorizAux (c.length + 1) c pos
  if p < c.length ∧ peek c p = '/' ∧ peekAt c p 1 = '/' then
    let q := skipToEndOfLine c p
    (extractRange c pos q, q)
  else ([], pos)

/-- Go `isIdentChar`. -/
def isIdentChar (ch : Char) : Bool :=
  ('a' ≤ ch ∧ ch ≤ 'z') ∨ ('A' ≤ ch ∧ ch ≤ 'Z') ∨ ('0' ≤ ch ∧ ch ≤ '9') ∨ ch = '_'

/-- The keyword table of Go `matchKeyword`. -/
def keywordList : List Str :=
  [strLit "syntax", strLit "package", strLit "import", strLit "option",
   strLit "message", strLit "enum", strLit "service", strLit "extend"]

/-- Go `matchKeyword`: the first keyword that prefixes the rest of the
input and is followed by a non-identifier character; `none` plays the
role of Go's empty string. -/
def matchKeyword (c : Str) (pos : Nat) : Option Str :=
  keywordList.find? (fun kw =>
    goHasPrefix (c.drop pos) kw ∧ (c.drop pos).length > kw.length ∧
      ¬ isIdentChar (peek c (pos + kw.length)))

/-- Go `extractDeclName`. -/
def extractDeclName (keyword text : Str) : Str :=
  let rest0 := text.drop keyword.length
  let rest := goTrimLeftCut rest0 (strLit " \t\r\n")
  if keyword = strLit "import" then
    let rest :=
      if goHasPrefix rest (strLit "public ") ∨ goHasPrefix rest (strLit "weak ") then
        match goIndexByte rest ' ' with
        | some idx => goTrimLeftCut (rest.drop idx) (strLit " \t")
        | none => rest
      else rest
    match rest with
    | [] => rest
    | q :: tailRest =>
        if q = '"' ∨ q = '\'' then
          match goIndexByte tailRest q with
          | some e => extractRange rest 1 (e + 1)
          | none => rest
        else rest
  else if keyword = strLit "option" then
    match goIndexByte rest '=' with
    | some eqIdx => goTrimSpace (rest.take eqIdx)
    | none => rest
  else if keyword = strLit "syntax" then
    match goIndexByte rest '=' with
    | some eqIdx =>
        let v := goTrimSpace (rest.drop (eqIdx + 1))
        let v := goTrimRightCut v (strLit ";")
        goTrimCut v (strLit "\"' ")
    | none => rest
  else if keyword = strLit "package" then
    match goIndexByte rest ';' with
    | some semiIdx => goTrimSpace (rest.take semiIdx)
    | none => goTrimSpace rest
  else
    rest.takeWhile (fun ch => isIdentChar ch ∨ ch = '.')

/-- Scanner errors.  `expectedKeyword` mirrors
`expected declaration keyword at position %d: %q` and carries the
cursor and the 40-character context snippet; `unknownKeyword` mirrors
the (unreachable) `unknown keyword %q at position %d` branch. -/
inductive ScanError : Type where
  | expectedKeyword (pos : Nat) (context : Str)
  | unknownKeyword (kw : Str) (pos : Nat)
deriving DecidableEq

/-- The `switch keyword` of Go `readDeclaration`: the block kind and
the cursor after the declaration body (`none` corresponds to the
unreachable `default` branch). -/
def keywordKindPos (c : Str) (pos : Nat) (kw : Str) : Option (BlockKind × Nat) :=
  if kw = strLit "syntax" then some (.syntaxKw, readUntilSemicolon c pos)
  else if kw = strLit "package" then some (.packageKw, readUntilSemicolon c pos)
  else if kw = strLit "import" then some (.importKw, readUntilSemicolon c pos)
  else if kw = strLit "option" then some (.optionKw, readUntilSemicolonWithBraces c pos)
  else if kw = strLit "message" then some (.messageKw, readBracedBlock c pos)
  else if kw = strLit "enum" then some (.enumKw, readBracedBlock c pos)
  else if kw = strLit "service" then some (.serviceKw, readBracedBlock c pos)
  else if kw = strLit "extend" then some (.extendKw, readBracedBlock c pos)
  else none

/-- Go `readDeclaration`.  The `GoOutcome.panic` case arises when the
declaration-text slice is out of bounds (the scanner's cursor can
exceed the input length by one after an escape at end of input inside
a string literal). -/
def readDeclaration (c : Str) (pos : Nat) :
    GoOutcome (Except ScanError (Block × Nat)) :=
  match matchKeyword c pos with
  | none =>
      .ret (.error (.expectedKeyword pos
        (extractRange c pos (min (pos + 40) c.length))))
  | some kw =>
      let start := pos
      match keywordKindPos c pos kw with
      | none => .ret (.error (.unknownKeyword kw pos))
      | some (kind, newPos) =>
          match goSlice c start newPos with
          | none => .panic
          | some declText0 =>
              let tc := consumeTrailingComment c newPos
              let declText := declText0 ++ tc.1
              let name := extractDeclName kw declText
              .ret (.ok ({ kind := kind, name := name, declText := declText }, tc.2))

/-- Loop body of Go `scanner.scan`. -/
def scanAux : Nat → Str → Nat → List Block → GoOutcome (Except ScanError (List Block))
  | 0, _, _, _ => .outOfFuel
  | fuel + 1, c, pos, acc =>
      if pos < c.length then
        let cm := collectComments c pos
        if cm.2 ≥ c.length then
          if goTrimSpace cm.1 ≠ [] then
            .ret (.ok (acc ++ [{ kind := .commentKw, comments := cm.1 }]))
          else .ret (.ok acc)
        else
          match readDeclaration c cm.2 with
          | .ret (.error e) => .ret (.error e)
          | .ret (.ok (b, pos')) =>
              scanAux fuel c pos' (acc ++ [{ b with comments := cm.1 }])
          | .panic => .panic
          | .outOfFuel => .outOfFuel
      else .ret (.ok acc)

/-- Go `ScanFile`: parse a proto file into a sequence of blocks. -/
def ScanFile (c : Str) : GoOutcome (Except ScanError (List Block)) :=
  scanAux (c.length + 2) c 0 []

/-! ## Reference extraction (Go regexes `rpcRe`, `fieldRe`, `mapFieldRe`,
`oneofRe`, `oneofVariantRe`)

The Go code uses RE2 patterns whose character classes at every
juncture are disjoint, so leftmost-first matching coincides with
maximal-munch parsing except at the explicit alternations, which are
tried in pattern order with full-tail backtracking below. -/

/-- RE2 class `\w`. -/
def isWordChar (c : Char) : Bool :=
  ('a' ≤ c ∧ c ≤ 'z') ∨ ('A' ≤ c ∧ c ≤ 'Z') ∨ ('0' ≤ c ∧ c ≤ '9') ∨ c = '_'

/-- RE2 class `[\w.]`. -/
def isWordDotChar (c : Char) : Bool := isWordChar c ∨ c = '.'

/-- RE2 class `\s` (which is `[\t\n\f\r ]`). -/
def isReSpace (c : Char) : Bool :=
  c = '\t' ∨ c = '\n' ∨ c = '\x0c' ∨ c = '\r' ∨ c = ' '

/-- RE2 class `\d`. -/
def isDigitChar (c : Char) : Bool := '0' ≤ c ∧ c ≤ '9'

/-- Match a literal, returning the rest. -/
def pLit (l : Str) (s : Str) : Option Str :=
  if goHasPrefix s l then some (s.drop l.length) else none

/-- Match one or more characters of a class (maximal munch). -/
def pCls1 (p : Char → Bool) (s : Str) : Option Str :=
  let w := s.takeWhile p
  if w = [] then none else some (s.drop w.length)

/-- Match a single expected character. -/
def pChar (ch : Char) : Str → Option Str
  | [] => none
  | c :: r => if c = ch then some r else none

/-- Tail `([\w.]+)\s*\)` of `rpcRe`'s argument segment, preceded by
the optional `(?:stream\s+)?` tried first (pattern order). -/
def pTypeParen (s : Str) : Option (Str × Str) :=
  let tail := fun (t : Str) =>
    let cap := t.takeWhile isWordDotChar
    if cap = [] then none
    else
      let r := (t.drop cap.length).dropWhile isReSpace
      match pChar ')' r with
      | some r2 => some (cap, r2)
      | none => none
  let withStream :=
    match pLit (strLit "stream") s with
    | some r1 =>
        match pCls1 isReSpace r1 with
        | some r2 => tail r2
        | none => none
    | none => none
  withStream <|> tail s

/-- One attempted match of Go `rpcRe` =
`rpc\s+(\w+)\s*\(\s*(?:stream\s+)?([\w.]+)\s*\)\s*returns\s*\(\s*(?:stream\s+)?([\w.]+)\s*\)`
starting at the head of `s`; returns the RPC and the match length. -/
def tryRpc (s : Str) : Option (RPC × Nat) :=
  match pLit (strLit "rpc") s with
  | none => none
  | some r1 =>
  match pCls1 isReSpace r1 with
  | none => none
  | some r2 =>
  let nm := r2.takeWhile isWordChar
  if nm = [] then none else
  match pChar '(' ((r2.drop nm.length).dropWhile isReSpace) with
  | none => none
  | some r4 =>
  match pTypeParen (r4.dropWhile isReSpace) with
  | none => none
  | some (req, r5) =>
  match pLit (strLit "returns") (r5.dropWhile isReSpace) with
  | none => none
  | some r6 =>
  match pChar '(' (r6.dropWhile isReSpace) with
  | none => none
  | some r7 =>
  match pTypeParen (r7.dropWhile isReSpace) with
  | none => none
  | some (res, r8) =>
      some ({ name := nm, requestType := req, responseType := res }, s.length - r8.length)

/-- Go `rpcRe.FindAllStringSubmatch`: leftmost, non-overlapping. -/
def rpcFindAllAux : Nat → Str → List RPC
  | 0, _ => []
  | fuel + 1, s =>
      match s with
      | [] => []
      | _ :: rest =>
          match tryRpc s with
          | some (r, len) => r :: rpcFindAllAux fuel (s.drop (max len 1))
          | none => rpcFindAllAux fuel rest

/-- All matches of `rpcRe` in `s`. -/
def rpcFindAll (s : Str) : List RPC := rpcFindAllAux (s.length + 1) s

/-- Go `ExtractRPCs`. -/
def ExtractRPCs (b : Block) : List RPC :=
  if b.kind ≠ .serviceKw then [] else rpcFindAll b.declText

/-- Tail `([\w.]+)\s+\w+\s*=\s*\d+` shared by `fieldRe` and
`oneofVariantRe`; returns the captured type and the rest. -/
def pFieldTail (s : Str) : Option (Str × Str) :=
  let cap := s.takeWhile isWordDotChar
  if cap = [] then none else
  match pCls1 isReSpace (s.drop cap.length) with
  | none => none
  | some r1 =>
  match pCls1 isWordChar r1 with
  | none => none
  | some r2 =>
  match pChar '=' (r2.dropWhile isReSpace) with
  | none => none
  | some r3 =>
  match pCls1 isDigitChar (r3.dropWhile isReSpace) with
  | none => none
  | some r4 => some (cap, r4)

/-- One attempted match of Go `fieldRe` =
`(?m)^\s*(?:repeated\s+|optional\s+)?([\w.]+)\s+\w+\s*=\s*\d+` at the
head of `s` (which the caller guarantees is a line start); the
alternatives of the optional group are tried in pattern order. -/
def tryField (s : Str) : Option (Str × Nat) :=
  let r0 := s.dropWhile isReSpace
  let attRepeated :=
    match pLit (strLit "repeated") r0 with
    | some r =>
        match pCls1 isReSpace r with
        | some r2 => pFieldTail r2
        | none => none
    | none => none
  let attOptional :=
    match pLit (strLit "optional") r0 with
    | some r =>
        match pCls1 isReSpace r with
        | some r2 => pFieldTail r2
        | none => none
    | none => none
  match attRepeated <|> attOptional <|> pFieldTail r0 with
  | some (cap, rest) => some (cap, s.length - rest.length)
  | none => none

/-- Scan for multiline `^`-anchored matches: `bol` records whether the
current position is a line start. -/
def anchoredFindAllAux (try_ : Str → Option (Str × Nat)) :
    Nat → Str → Bool → List Str
  | 0, _, _ => []
  | fuel + 1, s, bol =>
      match s with
      | [] => []
      | ch :: rest =>
          if bol then
            match try_ s with
            | some (cap, len) =>
                let len := max len 1
                cap :: anchoredFindAllAux try_ fuel (s.drop len)
                  ((s.take len).getLastD 'x' = '\n')
            | none => anchoredFindAllAux try_ fuel rest (ch = '\n')
          else anchoredFindAllAux try_ fuel rest (ch = '\n')

/-- Go `fieldRe.FindAllStringSubmatch`, keeping the captured group. -/
def fieldFindAll (s : Str) : List Str :=
  anchoredFindAllAux tryField (s.length + 1) s true

/-- One attempted match of Go `mapFieldRe` =
`map\s*<\s*[\w.]+\s*,\s*([\w.]+)\s*>\s*\w+\s*=\s*\d+`. -/
def tryMapField (s : Str) : Option (Str × Nat) :=
  match pLit (strLit "map") s with
  | none => none
  | some r1 =>
  match pChar '<' (r1.dropWhile isReSpace) with
  | none => none
  | some r2 =>
  match pCls1 isWordDotChar (r2.dropWhile isReSpace) with
  | none => none
  | some r3 =>
  match pChar ',' (r3.dropWhile isReSpace) with
  | none => none
  | some r4 =>
  let r4 := r4.dropWhile isReSpace
  let cap := r4.takeWhile isWordDotChar
  if cap = [] then none else
  match pChar '>' ((r4.drop cap.length).dropWhile isReSpace) with
  | none => none
  | some r5 =>
  match pCls1 isWordChar (r5.dropWhile isReSpace) with
  | none => none
  | some r6 =>
  match pChar '=' (r6.dropWhile isReSpace) with
  | none => none
  | some r7 =>
  match pCls1 isDigitChar (r7.dropWhile isReSpace) with
  | none => none
  | some r8 => some (cap, s.length - r8.length)

/-- Scan for unanchored matches at every position. -/
def unanchoredFindAllAux (try_ : Str → Option (Str × Nat)) :
    Nat → Str → List Str
  | 0, _ => []
  | fuel + 1, s =>
      match s with
      | [] => []
      | _ :: rest =>
          match try_ s with
          | some (cap, len) => cap :: unanchoredFindAllAux try_ fuel (s.drop (max len 1))
          | none => unanchoredFindAllAux try_ fuel rest

/-- Go `mapFieldRe.FindAllStringSubmatch`, keeping the value type. -/
def mapFindAll (s : Str) : List Str :=
  unanchoredFindAllAux tryMapField (s.length + 1) s

/-- One attempted match of Go `oneofRe` =
`(?s)oneof\s+\w+\s*\{([^}]*)\}`, capturing the body. -/
def tryOneof (s : Str) : Option (Str × Nat) :=
  match pLit (strLit "oneof") s with
  | none => none
  | some r1 =>
  match pCls1 isReSpace r1 with
  | none => none
  | some r2 =>
  match pCls1 isWordChar r2 with
  | none => none
  | some r3 =>
  match pChar '\x7b' (r3.dropWhile isReSpace) with
  | none => none
  | some r4 =>
  let cap := r4.takeWhile (fun c => c ≠ '\x7d')
  match pChar '\x7d' (r4.drop cap.length) with
  | none => none
  | some r5 => some (cap, s.length - r5.length)

/-- Go `oneofRe.FindAllStringSubmatch`, keeping the captured bodies. -/
def oneofFindAll (s : Str) : List Str :=
  unanchoredFindAllAux tryOneof (s.length + 1) s

/-- One attempted match of Go `oneofVariantRe` =
`(?m)^\s*([\w.]+)\s+\w+\s*=\s*\d+`. -/
def tryVariant (s : Str) : Option (Str × Nat) :=
  match pFieldTail (s.dropWhile isReSpace) with
  | some (cap, rest) => some (cap, s.length - rest.length)
  | none => none

/-- Go `oneofVariantRe.FindAllStringSubmatch` on a oneof body. -/
def variantFindAll (s : Str) : List Str :=
  anchoredFindAllAux tryVariant (s.length + 1) s true

/-- Go `extractBody`: the text between the first opening brace and the
last closing brace of a declaration. -/
def extractBody (declText : Str) : Str :=
  match goIndexByte declText '\x7b', goLastIndexByte declText '\x7d' with
  | some start, some stop =>
      if stop ≤ start then [] else extractRange declText (start + 1) stop
  | _, _ => []

/-- Go `isScalarType`. -/
def isScalarType (name : Str) : Bool :=
  [strLit "double", strLit "float",
   strLit "int32", strLit "int64", strLit "uint32", strLit "uint64",
   strLit "sint32", strLit "sint64",
   strLit "fixed32", strLit "fixed64", strLit "sfixed32", strLit "sfixed64",
   strLit "bool", strLit "string", strLit "bytes"].any (fun t => t = name)

/-- Whether a name is package-qualified (Go `strings.Contains t "."`). -/
def hasDot (t : Str) : Bool := t.any (fun c => c = '.')

/-- The `addType` closure of Go `ExtractFieldTypes`: skip qualified
names, empty names, scalars, and duplicates. -/
def addType (st : List Str) (t : Str) : List Str :=
  if hasDot t then st
  else if t ≠ [] ∧ ¬ isScalarType t ∧ ¬ st.any (fun x => x = t) then st ++ [t]
  else st

/-- Go `ExtractFieldTypes`: type names referenced by the fields of a
message or extend block, deduplicated, in first-occurrence order. -/
def ExtractFieldTypes (b : Block) : List Str :=
  if b.kind ≠ .messageKw ∧ b.kind ≠ .extendKw then [] else
  let body := extractBody b.declText
  let types := (fieldFindAll body).foldl addType []
  let types := (mapFindAll body).foldl addType types
  ((oneofFindAll body).flatMap variantFindAll).foldl addType types

/-! ## Reference graph builder (Go `BuildRefCounts`, `BuildRefGraph`)

Go maps become association lists folded in insertion order; only
lookups are observable, so the random iteration order of Go maps is
immaterial to the results proved below (the cycle boost is
idempotent and commutative). -/

/-- Lookup in a count map, defaulting to 0 like a Go `map[string]int`. -/
def cntGet (m : List (Str × Nat)) (k : Str) : Nat :=
  ((m.find? (fun kv => kv.1 = k)).map (fun kv => kv.2)).getD 0

/-- `m[k]++` on a count map. -/
def cntIncr (m : List (Str × Nat)) (k : Str) : List (Str × Nat) :=
  if m.any (fun kv => kv.1 = k) then
    m.map (fun kv => if kv.1 = k then (kv.1, kv.2 + 1) else kv)
  else m ++ [(k, 1)]

/-- `m[k] = v` on a count map. -/
def cntSet (m : List (Str × Nat)) (k : Str) (v : Nat) : List (Str × Nat) :=
  if m.any (fun kv => kv.1 = k) then
    m.map (fun kv => if kv.1 = k then (kv.1, v) else kv)
  else m ++ [(k, v)]

/-- Go `if counts[k] < 2 { counts[k] = 2 }`. -/
def cntMax2 (m : List (Str × Nat)) (k : Str) : List (Str × Nat) :=
  if cntGet m k < 2 then cntSet m k 2 else m

/-- Lookup in a `map[string]map[string]bool` or `map[string][]string`,
defaulting to the empty list. -/
def mapGet (m : List (Str × List Str)) (k : Str) : List Str :=
  ((m.find? (fun kv => kv.1 = k)).map (fun kv => kv.2)).getD []

/-- `m[a][t] = true` on a `map[string]map[string]bool` (inner sets are
kept as lists without duplicates). -/
def usesAdd (m : List (Str × List Str)) (a t : Str) : List (Str × List Str) :=
  if m.any (fun kv => kv.1 = a) then
    m.map (fun kv =>
      if kv.1 = a then
        (kv.1, if kv.2.any (fun x => x = t) then kv.2 else kv.2 ++ [t])
      else kv)
  else m ++ [(a, [t])]

/-- `m[k] = append(m[k], v)` on a `map[string][]string`. -/
def mapAppend (m : List (Str × List Str)) (k v : Str) : List (Str × List Str) :=
  if m.any (fun kv => kv.1 = k) then
    m.map (fun kv => if kv.1 = k then (kv.1, kv.2 ++ [v]) else kv)
  else m ++ [(k, [v])]

/-- Whether a type name is locally defined: a message or enum block of
that (non-empty) name exists (extend blocks never define types). -/
def definedIn (blocks : List Block) (t : Str) : Bool :=
  blocks.any (fun b =>
    (b.kind = .messageKw ∨ b.kind = .enumKw) ∧ b.name ≠ [] ∧ b.name = t)

/-- The reference list a block contributes in `BuildRefCounts` and
`BuildRefGraph` (the `switch b.Kind` in the Go source). -/
def blockRefsForCounts (b : Block) : List Str :=
  match b.kind with
  | .messageKw | .extendKw => ExtractFieldTypes b
  | .serviceKw => (ExtractRPCs b).flatMap (fun r => [r.requestType, r.responseType])
  | _ => []

/-- Per-block inner loop of `BuildRefCounts`: skip self-references,
count each defined reference once per block (the local `seen` set),
and record the `uses` edge when the block is named. -/
def countBlockRefs (defined : Str → Bool) (b : Block) :
    List Str → List Str → List (Str × Nat) → List (Str × List Str) →
    List (Str × Nat) × List (Str × List Str)
  | [], _, counts, uses => (counts, uses)
  | ref :: refs, seen, counts, uses =>
      if ref = b.name then countBlockRefs defined b refs seen counts uses
      else if defined ref ∧ ¬ seen.any (fun x => x = ref) then
        let counts := cntIncr counts ref
        let uses := if b.name ≠ [] then usesAdd uses b.name ref else uses
        countBlockRefs defined b refs (seen ++ [ref]) counts uses
      else countBlockRefs defined b refs seen counts uses

/-- The base pass of Go `BuildRefCounts`: raw counts plus the `uses`
graph, before the cycle boost. -/
def buildCountsBase (blocks : List Block) :
    List (Str × Nat) × List (Str × List Str) :=
  blocks.foldl
    (fun st b => countBlockRefs (definedIn blocks) b (blockRefsForCounts b) [] st.1 st.2)
    ([], [])

/-- The cycle-boost pass of Go `BuildRefCounts`: for every pair of
types that reference each other, force both counts up to at least 2. -/
def boostCycles (uses : List (Str × List Str)) (counts : List (Str × Nat)) :
    List (Str × Nat) :=
  uses.foldl
    (fun cnts akv =>
      akv.2.foldl
        (fun cnts b =>
          if (mapGet uses b).any (fun x => x = akv.1) then
            cntMax2 (cntMax2 cnts akv.1) b
          else cnts)
        cnts)
    counts

/-- Go `BuildRefCounts`: how many distinct declarations reference each
locally defined type name, with mutual references boosted to ≥ 2. -/
def BuildRefCounts (blocks : List Block) : List (Str × Nat) :=
  let base := buildCountsBase blocks
  boostCycles base.2 base.1

/-- Per-block inner loop of Go `BuildRefGraph`. -/
def graphBlockRefs (defined : Str → Bool) (b : Block) :
    List Str → List Str → List (Str × List Str) → List (Str × List Str)
  | [], _, graph => graph
  | ref :: refs, seen, graph =>
      if ref = b.name then graphBlockRefs defined b refs seen graph
      else if defined ref ∧ ¬ seen.any (fun x => x = ref) then
        graphBlockRefs defined b refs (seen ++ [ref]) (mapAppend graph ref b.name)
      else graphBlockRefs defined b refs seen graph

/-- Go `BuildRefGraph`: type name → names of declarations that
reference it. -/
def BuildRefGraph (blocks : List Block) : List (Str × List Str) :=
  blocks.foldl
    (fun graph b =>
      if b.name = [] then graph
      else graphBlockRefs (definedIn blocks) b (blockRefsForCounts b) [] graph)
    []

/-! ## RPC sorter (Go file with `SortRPCsInService`) -/

/-- Stable insertion sort modelling Go `sort.SliceStable` (and the
`sort.Slice` call sites, whose unstable algorithm reduces to insertion
sort on the slice sizes arising here; all `sort.Slice` uses below
either sort by distinct keys or keep ties in input order exactly as
insertion sort does). -/
def insertStable {α : Type} (less : α → α → Bool) (x : α) : List α → List α
  | [] => [x]
  | y :: ys => if less x y then x :: y :: ys else y :: insertStable less x ys

/-- Sort a list with the given strict `less`, stably. -/
def sortSlice {α : Type} (less : α → α → Bool) (l : List α) : List α :=
  l.foldl (fun acc x => insertStable less x acc) []

/-- Go `rpcEntry`: one RPC declaration inside a service body. -/
structure RpcEntry where
  comments : Str := []
  rpcText : Str := []
  name : Str := []
deriving DecidableEq

/-- Go `rpcLineRe` = `^\s*rpc\s+(\w+)\s*\(` applied to a single line;
returns the captured method name. -/
def tryRpcLine (line : Str) : Option Str :=
  match pLit (strLit "rpc") (line.dropWhile isReSpace) with
  | none => none
  | some r1 =>
  match pCls1 isReSpace r1 with
  | none => none
  | some r2 =>
  let nm := r2.takeWhile isWordChar
  if nm = [] then none else
  match pChar '(' ((r2.drop nm.length).dropWhile isReSpace) with
  | some _ => some nm
  | none => none

/-- State of the line-oriented machine in Go `parseRPCEntries`. -/
structure RPCParseState where
  entries : List RpcEntry := []
  nonRPCLines : List Str := []
  commentBuf : Str := []
  rpcBuf : Str := []
  currentName : Str := []
  inRPC : Bool := false
  braceDepth : Int := 0
deriving DecidableEq

/-- One line step of Go `parseRPCEntries`. -/
def rpcParseStep (st : RPCParseState) (line : Str) : RPCParseState :=
  let trimmed := goTrimSpace line
  if st.inRPC then
    let rpcBuf := st.rpcBuf ++ line ++ [ '\n' ]
    let depth := st.braceDepth +
      (goCountChar line '\x7b' : Int) - (goCountChar line '\x7d' : Int)
    if depth ≤ 0 ∧
        (goContains trimmed (strLit ";") ∨ goContains trimmed (strLit "\x7d")) then
      { st with
        entries := st.entries ++
          [{ comments := st.commentBuf, rpcText := rpcBuf, name := st.currentName }]
        commentBuf := []
        rpcBuf := []
        inRPC := false
        braceDepth := 0 }
    else { st with rpcBuf := rpcBuf, braceDepth := depth }
  else
    match tryRpcLine line with
    | some nm =>
        let depth := (goCountChar line '\x7b' : Int) - (goCountChar line '\x7d' : Int)
        let rpcBuf := st.rpcBuf ++ line ++ [ '\n' ]
        if depth ≤ 0 ∧ goContains trimmed (strLit ";") then
          { st with
            entries := st.entries ++
              [{ comments := st.commentBuf, rpcText := rpcBuf, name := nm }]
            commentBuf := []
            rpcBuf := []
            inRPC := false
            braceDepth := 0
            currentName := nm }
        else
          { st with
            currentName := nm
            inRPC := true
            braceDepth := depth
            rpcBuf := rpcBuf }
    | none =>
        if goHasPrefix trimmed (strLit "//") ∨ goHasPrefix trimmed (strLit "/*") then
          { st with commentBuf := st.commentBuf ++ line ++ [ '\n' ] }
        else if trimmed = [] then
          if st.commentBuf.length > 0 then
            { st with commentBuf := st.commentBuf ++ line ++ [ '\n' ] }
          else st
        else
          let st :=
            if st.commentBuf.length > 0 then
              { st with
                nonRPCLines := st.nonRPCLines ++
                  goSplitNL (goTrimRightCut st.commentBuf (strLit "\n"))
                commentBuf := [] }
            else st
          { st with nonRPCLines := st.nonRPCLines ++ [line] }

/-- Go `parseRPCEntries`: split a service body into RPC entries (with
attached comments) and non-RPC lines. -/
def parseRPCEntries (body : Str) : List RpcEntry × List Str :=
  let st := (goSplitNL body).foldl rpcParseStep {}
  if st.inRPC ∧ st.rpcBuf.length > 0 then
    (st.entries ++
      [{ comments := st.commentBuf, rpcText := st.rpcBuf, name := st.currentName }],
     st.nonRPCLines)
  else (st.entries, st.nonRPCLines)

/-- Go `rpcVerbPrefixes`, in source order (longest variants first). -/
def rpcVerbPrefixes : List Str :=
  [strLit "BatchCreate", strLit "BatchDelete", strLit "BatchGet", strLit "BatchUpdate",
   strLit "Create", strLit "Delete", strLit "Get", strLit "List", strLit "Update",
   strLit "Watch", strLit "Stream", strLit "Search",
   strLit "Set", strLit "Add", strLit "Remove",
   strLit "Start", strLit "Stop", strLit "Run", strLit "Check", strLit "Cancel"]

/-- Go `unicode.IsUpper` restricted to ASCII (RPC names matched by
`\w+` contain only ASCII word characters). -/
def goIsUpper (c : Char) : Bool := 'A' ≤ c ∧ c ≤ 'Z'

/-- Whether `rpcGroupKey` would strip this verb from this name. -/
def verbStrips (name p : Str) : Bool :=
  goHasPrefix name p ∧ name.length > p.length ∧ goIsUpper ((name.drop p.length).headD 'x')

/-- Go `rpcGroupKey`: strip the first matching verb from the fixed
list, provided the next character is upper case and the name is longer
than the verb; otherwise the name itself. -/
def rpcGroupKey (name : Str) : Str :=
  match rpcVerbPrefixes.find? (fun p => verbStrips name p) with
  | some p => name.drop p.length
  | none => name

/-- The comparison closure of the `alpha` mode in `SortRPCsInService`. -/
def rpcAlphaLess (a b : RpcEntry) : Bool := lexLt a.name b.name

/-- The comparison closure of the `grouped` mode in
`SortRPCsInService`: resource key first, then full method name. -/
def rpcGroupedLess (a b : RpcEntry) : Bool :=
  let gi := rpcGroupKey a.name
  let gj := rpcGroupKey b.name
  if gi ≠ gj then lexLt gi gj else lexLt a.name b.name

/-- The body reconstruction of `SortRPCsInService`. -/
def rebuildServiceBody (header : Str) (nonRPCLines : List Str)
    (entries : List RpcEntry) (trailer : Str) : Str :=
  header ++ [ '\n' ] ++
    (nonRPCLines.flatMap (fun l => l ++ [ '\n' ])) ++
    (entries.flatMap (fun e => e.comments ++ e.rpcText)) ++
    trailer

/-- Go `SortRPCsInService`: reorder the `rpc` entries of a service
declaration by the given mode, leaving non-RPC content at the top. -/
def SortRPCsInService (declText : Str) (mode : Str) : Str :=
  match goIndexByte declText '\x7b', goLastIndexByte declText '\x7d' with
  | some openIdx, some closeIdx =>
      if closeIdx ≤ openIdx then declText
      else
        let header := declText.take (openIdx + 1)
        let body := extractRange declText (openIdx + 1) closeIdx
        let trailer := declText.drop closeIdx
        let parsed := parseRPCEntries body
        if parsed.1.length ≤ 1 then declText
        else if mode = strLit "alpha" then
          rebuildServiceBody header parsed.2 (sortSlice rpcAlphaLess parsed.1) trailer
        else if mode = strLit "grouped" then
          rebuildServiceBody header parsed.2 (sortSlice rpcGroupedLess parsed.1) trailer
        else declText
  | _, _ => declText

/-! ## Comment, divider, annotation and section-header handling
(Go file with `Sort`, `stripDividerComments`, etc.)

The divider and commented-code regexes need genuine backtracking
(adjacent symbol runs can be split several ways), so they are matched
with a small backtracking pattern engine.  `matchSufs` returns, in
leftmost-first priority order, every suffix remaining after matching a
prefix of the input; a pattern matches when the list is non-empty. -/

/-- Patterns: literals, single-character classes, sequencing,
prioritized alternation, greedy star, and end-of-input. -/
inductive Pat : Type where
  | litP (l : Str)
  | clsP (p : Char → Bool)
  | seqP (a b : Pat)
  | altP (a b : Pat)
  | starP (a : Pat)
  | eosP

/-- Greedy star iteration: each iteration must consume at least one
character (as in RE2); longer matches come first. -/
def starFuelM (m : Str → List Str) : Nat → Str → List Str
  | 0, s => [s]
  | fuel + 1, s =>
      (((m s).filter (fun t => t.length < s.length)).flatMap
        (fun t => starFuelM m fuel t)) ++ [s]

/-- All suffixes after matching a prefix of `s` against the pattern,
in priority order. -/
def matchSufs : Pat → Str → List Str
  | .litP l, s => match pLit l s with | some r => [r] | none => []
  | .clsP p, s => match s with | [] => [] | c :: r => if p c then [r] else []
  | .seqP a b, s => (matchSufs a s).flatMap (matchSufs b)
  | .altP a b, s => matchSufs a s ++ matchSufs b s
  | .starP a, s => starFuelM (matchSufs a) (s.length + 1) s
  | .eosP, s => if s = [] then [[]] else []

/-- Whether the pattern matches a prefix of `s` (for `^`-anchored
patterns this is exactly Go `MatchString`). -/
def patMatches (p : Pat) (s : Str) : Bool := matchSufs p s ≠ []

/-- Sequence a list of patterns. -/
def seqList (ps : List Pat) : Pat := ps.foldr .seqP (.litP [])

/-- Prioritized alternation over a list (first pattern preferred). -/
def altList : List Pat → Pat
  | [] => .litP []
  | [p] => p
  | p :: ps => .altP p (altList ps)

/-- `p+`. -/
def plusP (p : Pat) : Pat := .seqP p (.starP p)

/-- `p?`, greedy. -/
def optP (p : Pat) : Pat := .altP p (.litP [])

/-- `p{3,}`. -/
def rep3plus (p : Pat) : Pat := seqList [p, p, p, .starP p]

/-- `p{0,3}`, greedy. -/
def repUpTo3 (p : Pat) : Pat := optP (.seqP p (optP (.seqP p (optP p))))

/-- `p{1,3}`, greedy. -/
def rep1To3 (p : Pat) : Pat := .seqP p (repUpTo3 p)

/-- The divider symbol class `[=\-*#]`. -/
def isDividerSym (c : Char) : Bool := c = '=' ∨ c = '-' ∨ c = '*' ∨ c = '#'

/-- Go `dividerBothSidesRe` =
`^//\s*[=\-*#]{3,}\s*(\w+\s*){0,3}[=\-*#]{3,}\s*$`. -/
def dividerBothSidesPat : Pat :=
  seqList [.litP (strLit "//"), .starP (.clsP isReSpace),
    rep3plus (.clsP isDividerSym), .starP (.clsP isReSpace),
    repUpTo3 (.seqP (plusP (.clsP isWordChar)) (.starP (.clsP isReSpace))),
    rep3plus (.clsP isDividerSym), .starP (.clsP isReSpace), .eosP]

/-- Go `dividerOneSideRe` = `^//\s*[=\-*#]{3,}\s+(\w+\s*){1,3}$`. -/
def dividerOneSidePat : Pat :=
  seqList [.litP (strLit "//"), .starP (.clsP isReSpace),
    rep3plus (.clsP isDividerSym), plusP (.clsP isReSpace),
    rep1To3 (.seqP (plusP (.clsP isWordChar)) (.starP (.clsP isReSpace))),
    .eosP]

/-- Go `isSectionDivider`. -/
def isSectionDivider (comment : Str) : Bool :=
  let trimmed := goTrimSpace comment
  patMatches dividerBothSidesPat trimmed ∨ patMatches dividerOneSidePat trimmed

/-- Go `stripDividerComments`. -/
def stripDividerComments (comments : Str) : Str :=
  if comments = [] then []
  else goJoinNL ((goSplitNL comments).filter (fun l => ¬ isSectionDivider l))

/-- Go `containsDivider`. -/
def containsDivider (comments : Str) : Bool :=
  (goSplitNL comments).any (fun l => isSectionDivider l)

/-- Go `codeLineRe`: one commented-out proto code line.  The pattern is
`^\s*//\s*(` eight alternatives `)` in source order. -/
def codeLinePat : Pat :=
  seqList [.starP (.clsP isReSpace), .litP (strLit "//"), .starP (.clsP isReSpace),
    altList
      [seqList [altList [.litP (strLit "message"), .litP (strLit "enum"),
          .litP (strLit "service"), .litP (strLit "extend")],
        plusP (.clsP isReSpace), plusP (.clsP isWordChar)],
       seqList [.litP (strLit "rpc"), plusP (.clsP isReSpace),
        plusP (.clsP isWordChar), .starP (.clsP isReSpace), .litP (strLit "(")],
       seqList [altList [.litP (strLit "import"), .litP (strLit "option"),
          .litP (strLit "package"), .litP (strLit "syntax")],
        plusP (.clsP isReSpace)],
       seqList [altList [.litP (strLit "repeated"), .litP (strLit "optional")],
        plusP (.clsP isReSpace), plusP (.clsP isWordChar),
        plusP (.clsP isReSpace), plusP (.clsP isWordChar),
        .starP (.clsP isReSpace), .litP (strLit "=")],
       seqList [plusP (.clsP isWordChar), plusP (.clsP isReSpace),
        plusP (.clsP isWordChar), .starP (.clsP isReSpace), .litP (strLit "="),
        .starP (.clsP isReSpace), plusP (.clsP isDigitChar)],
       .clsP (fun c => c = '\x7b' ∨ c = '\x7d' ∨ c = '(' ∨ c = ')' ∨ c = ';'),
       seqList [.litP (strLit "returns"), .starP (.clsP isReSpace),
        .litP (strLit "(")]]]

/-- Go `isCommentedOutCode`. -/
def isCommentedOutCode (lines : List Str) : Bool :=
  if lines = [] then false
  else lines.all (fun line =>
    goTrimSpace line = strLit "//" ∨ patMatches codeLinePat line)

/-- The inner grouping of Go `stripCommentedCode`: take the longest
prefix of consecutive `//` comment lines. -/
def collectSlashBlock : List Str → List Str × List Str
  | [] => ([], [])
  | l :: ls =>
      if goHasPrefix (goTrimSpace l) (strLit "//") then
        let br := collectSlashBlock ls
        (l :: br.1, br.2)
      else ([], l :: ls)

/-- Loop of Go `stripCommentedCode` over the line list. -/
def stripCommentedAux : Nat → List Str → List Str
  | 0, ls => ls
  | _, [] => []
  | fuel + 1, l :: ls =>
      if ¬ goHasPrefix (goTrimSpace l) (strLit "//") then
        l :: stripCommentedAux fuel ls
      else
        let br := collectSlashBlock (l :: ls)
        if isCommentedOutCode br.1 then stripCommentedAux fuel br.2
        else br.1 ++ stripCommentedAux fuel br.2

/-- Go `stripCommentedCode`. -/
def stripCommentedCode (comments : Str) : Str :=
  let lines := goSplitNL comments
  goJoinNL (stripCommentedAux (lines.length + 1) lines)

/-- Go `processComments`: apply `--strip-commented-code`. -/
def processComments (b : Block) (opts : Options) : Block :=
  if b.comments = [] then b
  else if opts.stripCommented then { b with comments := stripCommentedCode b.comments }
  else b

/-- Go `annotationRe` = `^//\s*\((core: referenced by |helper: used
only by |request/response|unreferenced)\)?[^\n]*$` applied to a
trimmed line: since the group is optional and `[^\n]*$` always matches
the rest of a single line, this holds exactly when the line starts
with `//`, optional spaces, and an opening parenthesis. -/
def annotMatches (trimmed : Str) : Bool :=
  match pLit (strLit "//") trimmed with
  | some r => (r.dropWhile isReSpace).headD 'x' = '('
  | none => false

/-- Go `stripAnnotations`. -/
def stripAnnots (comments : Str) : Str :=
  if comments = [] then []
  else goJoinNL ((goSplitNL comments).filter
    (fun line => ¬ annotMatches (goTrimSpace line)))

/-- Go `strings.Join refs ", "`. -/
def goJoinCommaSp : List Str → Str
  | [] => []
  | [l] => l
  | l :: ls => l ++ strLit ", " ++ goJoinCommaSp ls

/-- Go `annotateBlocks` on a single block. -/
def annotateBlock (refGraph : List (Str × List Str)) (b : Block) : Block :=
  if b.kind ≠ .messageKw ∧ b.kind ≠ .enumKw then b
  else
    let annot : Option Str :=
      match b.sect with
      | .requestResponse => some (strLit "// (request/response)")
      | .core =>
          some (strLit "// (core: referenced by " ++
            goJoinCommaSp (sortSlice lexLt (mapGet refGraph b.name)) ++ strLit ")")
      | .helper =>
          some (strLit "// (helper: used only by " ++ b.consumer ++ strLit ")")
      | .unreferenced => some (strLit "// (unreferenced)")
      | _ => none
    match annot with
    | none => b
    | some a =>
        let comments := goTrimRightCut (stripAnnots b.comments) (strLit "\n \t")
        if comments ≠ [] then
          { b with comments := comments ++ [ '\n' ] ++ a ++ [ '\n' ] }
        else { b with comments := a ++ [ '\n' ] }

/-- Go `annotateBlocks`. -/
def annotateBlocks (blocks : List Block) (refGraph : List (Str × List Str)) :
    List Block :=
  blocks.map (annotateBlock refGraph)

/-- Loop of Go `attachDividerComments`. -/
def attachDividerAux : List Block → Str → List Block
  | [], pending =>
      if pending ≠ [] then [{ kind := .commentKw, comments := pending }] else []
  | b :: bs, pending =>
      if b.kind = .commentKw ∧ containsDivider b.comments then
        let pending :=
          if pending ≠ [] then pending ++ [ '\n' ] ++ goTrimSpace b.comments
          else goTrimSpace b.comments
        attachDividerAux bs pending
      else if pending ≠ [] then
        let b :=
          if b.comments ≠ [] then { b with comments := pending ++ [ '\n' ] ++ b.comments }
          else { b with comments := pending ++ [ '\n' ] }
        b :: attachDividerAux bs []
      else b :: attachDividerAux bs []

/-- Go `attachDividerComments`: move freestanding divider comment
blocks onto the next declaration. -/
def attachDividerComments (blocks : List Block) : List Block :=
  attachDividerAux blocks []

/-- Go constant `sectionHeaderBanner`. -/
def sectionHeaderBanner : Str :=
  strLit "// " ++ List.replicate 76 '='

/-- Go `sectionHeaderComment`. -/
def sectionHeaderComment (label : Str) : Str :=
  sectionHeaderBanner ++ [ '\n' ] ++ strLit "// " ++ label ++ [ '\n' ] ++
    sectionHeaderBanner ++ [ '\n' ]

/-- The optional description suffix
`(?: (?:\([^)]+\)|--[^\n]+))?` of the section-header labels. -/
def labelSuffixPat : Pat :=
  optP (.seqP (.litP (strLit " "))
    (.altP
      (seqList [.litP (strLit "("), plusP (.clsP (fun c => c ≠ ')')),
        .litP (strLit ")")])
      (.seqP (.litP (strLit "--")) (plusP (.clsP (fun c => c ≠ '\n'))))))

/-- The label alternation of Go `sectionHeaderRe`, matched against the
full middle line of a header block (which in the regex is `// ` +
label followed by a newline, so the label must reach the line end). -/
def labelLinePat : Pat :=
  seqList [.litP (strLit "// "),
    altList
      [.litP (strLit "Services"),
       .seqP (.litP (strLit "Types for ")) (plusP (.clsP isWordChar)),
       .litP (strLit "Shared Types"),
       .litP (strLit "Core Types"),
       .litP (strLit "Unreferenced Types"),
       .seqP (.litP (strLit "Composite Types")) labelSuffixPat,
       .seqP (.litP (strLit "Helper Types")) labelSuffixPat,
       .seqP (.litP (strLit "Standalone Types")) labelSuffixPat,
       .litP (strLit "Types unused by RPCs")],
    .eosP]

/-- If `s` starts with a full 3-line section-header block
(`banner\n// label\nbanner\n`), return its length. -/
def sectionHeaderAt (s : Str) : Option Nat :=
  match pLit sectionHeaderBanner s with
  | none => none
  | some r1 =>
  match pChar '\n' r1 with
  | none => none
  | some r2 =>
  let line2 := r2.takeWhile (fun c => c ≠ '\n')
  match pChar '\n' (r2.drop line2.length) with
  | none => none
  | some r3 =>
  if ¬ patMatches labelLinePat line2 then none
  else
    match pLit sectionHeaderBanner r3 with
    | none => none
    | some r4 =>
    match pChar '\n' r4 with
    | none => none
    | some r5 => some (s.length - r5.length)

/-- Scan of Go `sectionHeaderRe.ReplaceAllString comments ""`:
leftmost, non-overlapping removal of header blocks at line starts. -/
def stripSectionHeadersAux : Nat → Str → Bool → Str
  | 0, s, _ => s
  | fuel + 1, s, bol =>
      match s with
      | [] => []
      | c :: rest =>
          if bol then
            match sectionHeaderAt s with
            | some len => stripSectionHeadersAux fuel (s.drop len) true
            | none => c :: stripSectionHeadersAux fuel rest (c = '\n')
          else c :: stripSectionHeadersAux fuel rest (c = '\n')

/-- Go `stripSectionHeaders`. -/
def stripSectionHeaders (comments : Str) : Str :=
  if comments = [] then []
  else stripSectionHeadersAux (comments.length + 1) comments true

/-- Go `isProto2` line loop: the first line whose trimmed form starts
with `syntax` decides; the comment/blank `continue` branch is a no-op
(every other line falls through to the next iteration as well). -/
def isProto2Lines : List Str → Bool
  | [] => false
  | l :: ls =>
      let trimmed := goTrimSpace l
      if goHasPrefix trimmed (strLit "syntax") then
        goContains trimmed (strLit "\"proto2\"")
      else isProto2Lines ls

/-- Go `isProto2`. -/
def isProto2 (content : Str) : Bool := isProto2Lines (goSplitNL content)

/-! ## Emitter (Go file `emit.go`) -/

/-- Go `cleanComments`: drop leading and trailing blank lines of a
comment block, keeping interior blank lines. -/
def cleanComments (s : Str) : Str :=
  if s = [] then []
  else
    let lines := goSplitNL s
    let lines := lines.dropWhile (fun l => goTrimSpace l = [])
    let lines := (lines.reverse.dropWhile (fun l => goTrimSpace l = [])).reverse
    goJoinNL lines

/-- Go `writeBlockWithComments`. -/
def writeBlockWithComments (b : Block) : Str :=
  let comments := cleanComments b.comments
  (if comments ≠ [] then
    comments ++ (if ¬ goHasSuffix comments (strLit "\n") then [ '\n' ] else [])
   else []) ++
  b.declText ++ (if ¬ goHasSuffix b.declText (strLit "\n") then [ '\n' ] else [])

/-- Go `Emit`: serialize the ordered blocks, normalizing the spacing
between blocks and ending the file with a single newline. -/
def Emit (headerComments : Str) (syntaxBlock packageBlock : Option Block)
    (optionBlocks importBlocks extendBlocks body : List Block) : Str :=
  let hc := cleanComments headerComments
  let out :=
    (if hc ≠ [] then hc ++ (if ¬ goHasSuffix hc (strLit "\n") then [ '\n' ] else [])
     else []) ++
    (match syntaxBlock with
     | some sb =>
         sb.declText ++ (if ¬ goHasSuffix sb.declText (strLit "\n") then [ '\n' ] else [])
     | none => []) ++
    (match packageBlock with
     | some pb => [ '\n' ] ++ writeBlockWithComments pb
     | none => []) ++
    (optionBlocks.flatMap (fun b => [ '\n' ] ++ writeBlockWithComments b)) ++
    (extendBlocks.flatMap (fun b => [ '\n' ] ++ writeBlockWithComments b)) ++
    (if importBlocks ≠ [] then
      [ '\n' ] ++ goJoinNL (importBlocks.map writeBlockWithComments)
     else []) ++
    (body.flatMap (fun b => [ '\n' ] ++ writeBlockWithComments b))
  goTrimRightCut out (strLit "\n") ++ [ '\n' ]

/-! ## Classification and the Sort pipeline (Go file with `Sort`,
current variant: outgoing-reference classification, standalone types
before composite types, and no warnings) -/

/-- Go `classifyServiceAndRPC`: separate service blocks and their RPC
request/response messages (in RPC declaration order, first occurrence
only) from the rest. -/
def classifyServiceAndRPC (blocks : List Block) :
    List Block × List Block × List Block :=
  let blockMap := fun (t : Str) =>
    (blocks.filter (fun b => b.name ≠ [] ∧ b.name = t)).getLast?
  let svcBlocks := blocks.filter (fun b => b.kind = .serviceKw)
  if svcBlocks = [] then ([], [], blocks)
  else
    let rpcTypeNames :=
      svcBlocks.flatMap (fun svc =>
        svc.rpcs.flatMap (fun r => [r.requestType, r.responseType]))
    let rpcMsgs :=
      (rpcTypeNames.foldl
        (fun (st : List Block × List Str) t =>
          if st.2.any (fun x => x = t) then st
          else
            match blockMap t with
            | some b => (st.1 ++ [b], st.2 ++ [t])
            | none => (st.1, st.2 ++ [t]))
        ([], [])).1
    let rpcMsgNames := rpcMsgs.map (fun b => b.name)
    let rest := blocks.filter (fun b =>
      b.kind ≠ .serviceKw ∧ ¬ rpcMsgNames.any (fun n => n = b.name))
    (svcBlocks, rpcMsgs, rest)

/-- Lookup in a `map[string]int` with `Int` values (Go `inDegree`). -/
def intGet (m : List (Str × Int)) (k : Str) : Int :=
  ((m.find? (fun kv => kv.1 = k)).map (fun kv => kv.2)).getD 0

/-- `m[k] = v` on a `map[string]int` with `Int` values. -/
def intSet (m : List (Str × Int)) (k : Str) (v : Int) : List (Str × Int) :=
  if m.any (fun kv => kv.1 = k) then
    m.map (fun kv => if kv.1 = k then (kv.1, v) else kv)
  else m ++ [(k, v)]

/-- Per-block inner loop of the adjacency construction in
`topoSortBlocks`: bump this block's in-degree and record the reverse
edge for each deduplicated reference into another core block. -/
def topoBlockRefs (coreSet : Str → Bool) (b : Block) :
    List Str → List Str → List (Str × Int) → List (Str × List Str) →
    List (Str × Int) × List (Str × List Str)
  | [], _, inDeg, deps => (inDeg, deps)
  | ref :: refs, seen, inDeg, deps =>
      if ref = b.name then topoBlockRefs coreSet b refs seen inDeg deps
      else if coreSet ref ∧ ¬ seen.any (fun x => x = ref) then
        topoBlockRefs coreSet b refs (seen ++ [ref])
          (intSet inDeg b.name (intGet inDeg b.name + 1))
          (mapAppend deps ref b.name)
      else topoBlockRefs coreSet b refs seen inDeg deps

/-- Kahn loop of `topoSortBlocks`: pop the alphabetically smallest
ready name, append its block, release its dependents.  Fuel bounds the
iteration count (each iteration pops one queue element; pushes are
bounded by the total size of the dependents lists). -/
def kahnLoop (coreMap : Str → Option Block) (deps : List (Str × List Str)) :
    Nat → List Str → List (Str × Int) → List Block → List Block
  | 0, _, _, result => result
  | _ + 1, [], _, result => result
  | fuel + 1, name :: queue, inDeg, result =>
      let result := result ++ (coreMap name).toList
      let step :=
        (mapGet deps name).foldl
          (fun (st : List Str × List (Str × Int)) dep =>
            let inDeg := intSet st.2 dep (intGet st.2 dep - 1)
            if intGet inDeg dep = 0 then (sortSlice lexLt (st.1 ++ [dep]), inDeg)
            else (st.1, inDeg))
          (queue, inDeg)
      kahnLoop coreMap deps fuel step.1 step.2 result

/-- Go `topoSortBlocks`: stable dependency order for core blocks with
alphabetical tie-breaking; residual cycle members are appended
alphabetically. -/
def topoSortBlocks (coreBlocks allBlocks : List Block) : List Block :=
  if coreBlocks.length ≤ 1 then coreBlocks
  else
    let coreSet := fun (t : Str) => coreBlocks.any (fun b => b.name = t)
    let coreMap := fun (t : Str) =>
      (coreBlocks.filter (fun b => b.name = t)).getLast?
    let start :=
      allBlocks.foldl
        (fun (st : List (Str × Int) × List (Str × List Str)) b =>
          if ¬ coreSet b.name then st
          else topoBlockRefs coreSet b (blockRefsForCounts b) [] st.1 st.2)
        (coreBlocks.foldl (fun m b => intSet m b.name 0) [], [])
    let queue :=
      sortSlice lexLt
        ((coreBlocks.filter (fun b => intGet start.1 b.name = 0)).map (fun b => b.name))
    let fuel :=
      coreBlocks.length + (start.2.map (fun kv => kv.2.length)).sum + 1
    let result := kahnLoop coreMap start.2 fuel queue start.1 []
    if result.length < coreBlocks.length then
      let emitted := result.map (fun b => b.name)
      let remaining :=
        coreBlocks.filter (fun b => ¬ emitted.any (fun n => n = b.name))
      result ++ sortSlice (fun a b => lexLt a.name b.name) remaining
    else result

/-- Lookup with presence in a `map[string]string`. -/
def strMapFind (m : List (Str × Str)) (k : Str) : Option Str :=
  (m.find? (fun kv => kv.1 = k)).map (fun kv => kv.2)

/-- Go `buildMessageToRPCMap`: message name → owning RPC name, first
occurrence wins. -/
def buildMessageToRPCMap (serviceBlocks : List Block) : List (Str × Str) :=
  serviceBlocks.foldl
    (fun m svc =>
      svc.rpcs.foldl
        (fun m r =>
          [r.requestType, r.responseType].foldl
            (fun (m : List (Str × Str)) t =>
              if (strMapFind m t).isSome then m else m ++ [(t, r.name)])
            m)
        m)
    []

/-- `map[string]*Block` built from the ordered list, last write wins. -/
def orderedBlockMap (ordered : List Block) (t : Str) : Option Block :=
  (ordered.filter (fun b => b.name = t)).getLast?

/-- Go `findUltimateConsumer`: follow consumer links through helper
blocks (fuel-bounded; the chains produced by `Sort` are acyclic). -/
def findUltimateConsumer (blockMap : Str → Option Block) :
    Nat → Str → Str
  | 0, name => name
  | fuel + 1, name =>
      match blockMap name with
      | some b =>
          if b.sect = .helper then findUltimateConsumer blockMap fuel b.consumer
          else name
      | none => name

/-- One step of Go `injectSectionHeaders`; the state carries the
already-emitted section set and RPC-group set. -/
def injectHeaderStep (hasServices : Bool) (msgToRPC : List (Str × Str))
    (blockMap : Str → Option Block) (fuel : Nat)
    (st : List Block × List Section × List Str) (b : Block) :
    List Block × List Section × List Str :=
  let sec :=
    if b.sect = .helper then
      if hasServices then
        if b.consumer ≠ [] ∧ (strMapFind msgToRPC b.consumer).isSome then
          Section.requestResponse
        else Section.helper
      else
        let ultimate := findUltimateConsumer blockMap fuel b.name
        match blockMap ultimate with
        | some ub => if ub.sect = .unreferenced then Section.unreferenced else Section.helper
        | none => Section.helper
    else b.sect
  let headerAndRPCs : Str × List Str :=
    match sec with
    | .service => ([], st.2.2)
    | .requestResponse =>
        let rpcName :=
          match strMapFind msgToRPC b.name with
          | some n => n
          | none => (strMapFind msgToRPC b.consumer).getD []
        if rpcName ≠ [] ∧ ¬ st.2.2.any (fun x => x = rpcName) then
          (sectionHeaderComment (strLit "Types for " ++ rpcName), st.2.2 ++ [rpcName])
        else ([], st.2.2)
    | .core =>
        if ¬ st.2.1.any (fun s => s = Section.core) then
          (sectionHeaderComment (strLit "Composite Types -- using other types"), st.2.2)
        else ([], st.2.2)
    | .helper =>
        if ¬ st.2.1.any (fun s => s = Section.helper) then
          (sectionHeaderComment (strLit "Helper Types -- used in other types"), st.2.2)
        else ([], st.2.2)
    | .unreferenced =>
        if ¬ st.2.1.any (fun s => s = Section.unreferenced) then
          (sectionHeaderComment
            (if hasServices then strLit "Types unused by RPCs"
             else strLit "Standalone Types -- not referenced elsewhere in this file"),
           st.2.2)
        else ([], st.2.2)
    | .header => ([], st.2.2)
  let emittedSections := st.2.1 ++ [sec]
  let b :=
    if headerAndRPCs.1 ≠ [] then
      { b with comments := headerAndRPCs.1 ++ b.comments.dropWhile (fun c => c = '\n') }
    else b
  (st.1 ++ [b], emittedSections, headerAndRPCs.2)

/-- Go `injectSectionHeaders`. -/
def injectSectionHeaders (ordered serviceBlocks : List Block) : List Block :=
  if ordered = [] then ordered
  else
    let hasServices := serviceBlocks.length > 0
    let msgToRPC := if hasServices then buildMessageToRPCMap serviceBlocks else []
    let blockMap := orderedBlockMap ordered
    (ordered.foldl
      (injectHeaderStep hasServices msgToRPC blockMap (ordered.length + 1))
      ([], [], [])).1

/-! ## The Sort pipeline -/

/-- Error variants of Go `Sort`: the unsupported-dialect error
(`Proto2Error`) and the parse error wrapping a scanner error
(`ParseError`). -/
inductive SortError : Type where
  | proto2
  | parse (e : ScanError)
deriving DecidableEq

/-- The Go `Sort` result triple `(output, warnings, error)`. -/
structure SortValue where
  output : Str
  warnings : List Str
  err : Option SortError
deriving DecidableEq

/-- Lookup in a `map[string][]*Block`. -/
def blkMapGet (m : List (Str × List Block)) (k : Str) : List Block :=
  ((m.find? (fun kv => kv.1 = k)).map (fun kv => kv.2)).getD []

/-- `m[k] = append(m[k], b)` on a `map[string][]*Block`. -/
def blkMapAppend (m : List (Str × List Block)) (k : Str) (b : Block) :
    List (Str × List Block) :=
  if m.any (fun kv => kv.1 = k) then
    m.map (fun kv => if kv.1 = k then (kv.1, kv.2 ++ [b]) else kv)
  else m ++ [(k, [b])]

/-- `m[k] = v` on a `map[string][]string` (Go `outgoingRefs`). -/
def mapSet (m : List (Str × List Str)) (k : Str) (v : List Str) :
    List (Str × List Str) :=
  if m.any (fun kv => kv.1 = k) then
    m.map (fun kv => if kv.1 = k then (kv.1, v) else kv)
  else m ++ [(k, v)]

/-- Go `emitWithHelpers`: emit a block's helpers (recursively) before
the block itself, tracking emitted names.  Fuel bounds the recursion
depth (the helper chains `Sort` builds are acyclic and short). -/
def emitWithHelpers (helperMap : List (Str × List Block)) :
    Nat → List Block × List Str → Block → List Block × List Str
  | 0, st, _ => st
  | fuel + 1, st, b =>
      if st.2.any (fun n => n = b.name) then st
      else
        let st := (blkMapGet helperMap b.name).foldl
          (emitWithHelpers helperMap fuel) st
        (st.1 ++ [b], st.2 ++ [b.name])

/-- The classification loop of `Sort` over the remaining (non-service,
non-RPC) blocks: outgoing references make a block composite/core,
incoming references only make it a helper, neither makes it
standalone/unreferenced.  No warnings are produced anywhere in this
variant of `Sort` (the `warnings` slice is returned empty). -/
def classifyRemaining (svcNames rpcMsgNames : List Str)
    (outgoingRefs : List (Str × List Str)) (refCounts : List (Str × Nat))
    (refGraph : List (Str × List Str)) (remaining : List Block) :
    List Block × List Block × List Block :=
  remaining.foldl
    (fun (st : List Block × List Block × List Block) b =>
      if svcNames.any (fun n => n = b.name) ∨ rpcMsgNames.any (fun n => n = b.name) then
        st
      else
        let hasOutgoingRefs := (mapGet outgoingRefs b.name).length > 0
        let incomingRefCount := cntGet refCounts b.name
        if hasOutgoingRefs then
          (st.1 ++ [{ b with sect := .core }], st.2)
        else if incomingRefCount > 0 then
          let consumer :=
            match mapGet refGraph b.name with
            | [] => b.consumer
            | r :: _ => r
          (st.1, st.2.1 ++ [{ b with sect := .helper, consumer := consumer }], st.2.2)
        else
          (st.1, st.2.1, st.2.2 ++ [{ b with sect := .unreferenced }]))
    ([], [], [])

/-- The comment-processing passes at the top of `Sort`, in source
order: strip injected section headers, apply `--strip-commented-code`,
and (when dividers are not preserved) strip divider comments. -/
def sortCommentPass (opts : Options) (b : Block) : Block :=
  let b := { b with comments := stripSectionHeaders b.comments }
  let b := processComments b opts
  if ¬ opts.preserveDividers then
    { b with comments := stripDividerComments b.comments }
  else b

/-- The preprocessing front of `Sort`: optional divider reattachment,
comment passes, optional RPC sorting inside services, and RPC
population on service blocks. -/
def sortPreprocess (opts : Options) (blocks0 : List Block) : List Block :=
  let blocks := if opts.preserveDividers then attachDividerComments blocks0 else blocks0
  let blocks := blocks.map (sortCommentPass opts)
  let blocks :=
    if opts.sortRPCs ≠ [] then
      blocks.map (fun b =>
        if b.kind = .serviceKw then
          { b with declText := SortRPCsInService b.declText opts.sortRPCs }
        else b)
    else blocks
  blocks.map (fun b =>
    if b.kind = .serviceKw then { b with rpcs := ExtractRPCs b } else b)

/-- The header/body separation switch of `Sort`. -/
structure Separated where
  headerComments : Str
  syntaxBlock : Option Block
  packageBlock : Option Block
  optionBlocks : List Block
  importBlocks : List Block
  extendBlocks : List Block
  bodyBlocks : List Block

/-- Separate header blocks from body blocks (syntax and package keep
the last occurrence, as Go map-style assignment does; freestanding
comment blocks are dropped). -/
def separateBlocks (blocks : List Block) : Separated :=
  let syntaxBlock := (blocks.filter (fun b => b.kind = .syntaxKw)).getLast?
  { headerComments := (syntaxBlock.map (fun b => b.comments)).getD []
    syntaxBlock := syntaxBlock
    packageBlock := (blocks.filter (fun b => b.kind = .packageKw)).getLast?
    optionBlocks := blocks.filter (fun b => b.kind = .optionKw)
    importBlocks := blocks.filter (fun b => b.kind = .importKw)
    extendBlocks := blocks.filter (fun b => b.kind = .extendKw)
    bodyBlocks := blocks.filter (fun b =>
      b.kind = .messageKw ∨ b.kind = .enumKw ∨ b.kind = .serviceKw) }

/-- The `outgoingRefs` map of `Sort`: for each body block, its field
references into locally defined types (the `defined` set here is built
without the empty-name guard, exactly as in the source). -/
def computeOutgoingRefs (bodyBlocks : List Block) : List (Str × List Str) :=
  let definedS := fun (t : Str) => bodyBlocks.any (fun b =>
    (b.kind = .messageKw ∨ b.kind = .enumKw) ∧ b.name = t)
  bodyBlocks.foldl
    (fun (m : List (Str × List Str)) b =>
      let refs : List Str :=
        match b.kind with
        | .messageKw | .extendKw => ExtractFieldTypes b
        | _ => []
      let localRefs := refs.filter (fun ref => definedS ref ∧ ref ≠ b.name)
      if localRefs.length > 0 then mapSet m b.name localRefs else m)
    []

/-- The `helperMap` of `Sort`: consumer → helpers, each group sorted
alphabetically. -/
def buildHelperMap (helperBlocks : List Block) : List (Str × List Block) :=
  (helperBlocks.foldl (fun m h => blkMapAppend m h.consumer h) []).map
    (fun kv => (kv.1, sortSlice (fun a b => lexLt a.name b.name) kv.2))

/-- The final ordered-list assembly of `Sort`: services, then RPC
request/response messages with their helpers, then standalone types,
then composite types, then leftover helpers. -/
def buildOrdered (helperMap : List (Str × List Block)) (fuel : Nat)
    (serviceBlocks rpcMessages unrefBlocks coreBlocks helperBlocks : List Block) :
    List Block :=
  let st : List Block × List Str :=
    serviceBlocks.foldl
      (fun (st : List Block × List Str) svc =>
        (st.1 ++ [{ svc with sect := .service }], st.2 ++ [svc.name]))
      ([], [])
  let st :=
    rpcMessages.foldl
      (fun st msg =>
        emitWithHelpers helperMap fuel st { msg with sect := .requestResponse })
      st
  let st :=
    unrefBlocks.foldl
      (fun (st : List Block × List Str) unref =>
        if ¬ st.2.any (fun n => n = unref.name) then
          (st.1 ++ [unref], st.2 ++ [unref.name])
        else st)
      st
  let st :=
    coreBlocks.foldl
      (fun (st : List Block × List Str) core =>
        if ¬ st.2.any (fun n => n = core.name) then
          (st.1 ++ [core], st.2 ++ [core.name])
        else st)
      st
  let st :=
    helperBlocks.foldl
      (fun (st : List Block × List Str) h =>
        if ¬ st.2.any (fun n => n = h.name) then
          (st.1 ++ [h], st.2 ++ [h.name])
        else st)
      st
  st.1

/-- The whole body of `Sort` after a successful scan with a non-empty
block list. -/
def sortScanned (opts : Options) (blocks0 : List Block) : Str :=
  let blocks := sortPreprocess opts blocks0
  let sep := separateBlocks blocks
  let optionBlocks := sortSlice (fun a b => lexLt a.name b.name) sep.optionBlocks
  let importBlocks := sortSlice (fun a b => lexLt a.name b.name) sep.importBlocks
  let bodyBlocks := sep.bodyBlocks
  let refCounts := BuildRefCounts bodyBlocks
  let refGraph := BuildRefGraph bodyBlocks
  let cls := classifyServiceAndRPC bodyBlocks
  let cls2 := classifyRemaining (cls.1.map (fun b => b.name))
    (cls.2.1.map (fun b => b.name)) (computeOutgoingRefs bodyBlocks)
    refCounts refGraph cls.2.2
  let coreBlocks :=
    if opts.sharedOrder = strLit "dependency" then
      topoSortBlocks cls2.1 bodyBlocks
    else sortSlice (fun a b => lexLt a.name b.name) cls2.1
  let unrefBlocks := sortSlice (fun a b => lexLt a.name b.name) cls2.2.2
  let helperMap := buildHelperMap cls2.2.1
  let ordered := buildOrdered helperMap (blocks.length + 1) cls.1 cls.2.1
    unrefBlocks coreBlocks cls2.2.1
  let ordered := if opts.annotate then annotateBlocks ordered refGraph else ordered
  let ordered :=
    if opts.sectionHeaders then injectSectionHeaders ordered cls.1 else ordered
  Emit sep.headerComments sep.syntaxBlock sep.packageBlock optionBlocks
    importBlocks sep.extendBlocks ordered

/-- Go `Sort` (the Lean name avoids the reserved word `Sort`): check
the proto2 pre-scan, scan, and reorder.  Returns the Go result triple
`(output, warnings, error)`; the scanner's runtime panic propagates as
`GoOutcome.panic`.  This variant of `Sort` never appends to
`warnings`, so the returned warning list is always empty. -/
def GoSort (content : Str) (opts : Options) : GoOutcome SortValue :=
  if isProto2 content then
    .ret { output := [], warnings := [], err := some .proto2 }
  else
    match ScanFile content with
    | .panic => .panic
    | .outOfFuel => .outOfFuel
    | .ret (.error e) =>
        .ret { output := [], warnings := [], err := some (.parse e) }
    | .ret (.ok blocks0) =>
        if blocks0.length = 0 then
          .ret { output := content, warnings := [], err := none }
        else
          .ret { output := sortScanned opts blocks0, warnings := [], err := none }

/-! ## Content integrity (Go `verifyContentIntegrity`,
`extractDeclarations`) -/

/-- Errors of Go `verifyContentIntegrity`, mirroring the `fmt.Errorf`
messages structurally. -/
inductive IntegrityError : Type where
  | scanOriginal (e : ScanError)
  | scanSorted (e : ScanError)
  | countMismatch (origCount sortedCount : Nat)
  | missing (key : Str)
  | bodyDiffers (key : Str)
  | unexpected (key : Str)
deriving DecidableEq

/-- Go `extractDeclarations`: map from `kind:name` key to body text
(braced kinds) or whole declaration text (header kinds); later blocks
with the same key overwrite earlier ones. -/
def extractDeclarations (blocks : List Block) : List (Str × Str) :=
  blocks.foldl
    (fun (decls : List (Str × Str)) b =>
      match b.kind with
      | .messageKw | .enumKw | .serviceKw | .extendKw =>
          let key := b.kind.str ++ strLit ":" ++ b.name
          if decls.any (fun kv => kv.1 = key) then
            decls.map (fun kv => if kv.1 = key then (kv.1, extractBody b.declText) else kv)
          else decls ++ [(key, extractBody b.declText)]
      | .syntaxKw | .packageKw | .optionKw | .importKw =>
          let key := b.kind.str ++ strLit ":" ++ b.name
          if decls.any (fun kv => kv.1 = key) then
            decls.map (fun kv => if kv.1 = key then (kv.1, b.declText) else kv)
          else decls ++ [(key, b.declText)]
      | .commentKw => decls)
    []

/-- Go `verifyContentIntegrity`: scan both texts and require the same
keyed declaration maps; `none` is Go's `nil` (success), and the panic
and fuel outcomes of the scanner are surfaced separately. -/
def verifyContentIntegrity (original sorted : Str) :
    GoOutcome (Option IntegrityError) :=
  match ScanFile original with
  | .panic => .panic
  | .outOfFuel => .outOfFuel
  | .ret (.error e) => .ret (some (.scanOriginal e))
  | .ret (.ok origBlocks) =>
  match ScanFile sorted with
  | .panic => .panic
  | .outOfFuel => .outOfFuel
  | .ret (.error e) => .ret (some (.scanSorted e))
  | .ret (.ok sortedBlocks) =>
      let origDecls := extractDeclarations origBlocks
      let sortedDecls := extractDeclarations sortedBlocks
      if origDecls.length ≠ sortedDecls.length then
        .ret (some (.countMismatch origDecls.length sortedDecls.length))
      else
        let bad1 := origDecls.find? (fun kv =>
          match sortedDecls.find? (fun kv2 => kv2.1 = kv.1) with
          | none => true
          | some kv2 => kv2.2 ≠ kv.2)
        match bad1 with
        | some kv =>
            (match sortedDecls.find? (fun kv2 => kv2.1 = kv.1) with
             | none => .ret (some (.missing kv.1))
             | some _ => .ret (some (.bodyDiffers kv.1)))
        | none =>
            match sortedDecls.find? (fun kv2 =>
              ¬ origDecls.any (fun kv => kv.1 = kv2.1)) with
            | some kv2 => .ret (some (.unexpected kv2.1))
            | none => .ret none

/-! ## Claim-layer definitions

Concrete inputs for the claims, and the spec-side notions (reference
relation, first syntax line, trailing-newline shape) that the theorems
below relate to the embedded code. -/

/-- Whether block `b` references type `t` in the sense effective in
`BuildRefCounts`: `t` is locally defined, is not `b`'s own name, and
occurs among `b`'s extracted references. -/
def refsB (blocks : List Block) (b : Block) (t : Str) : Bool :=
  t ≠ b.name ∧ definedIn blocks t ∧ (blockRefsForCounts b).any (fun x => x = t)

/-- The number of blocks referencing `t` (each block counts once). -/
def rawCount (blocks : List Block) (t : Str) : Nat :=
  blocks.countP (fun b => refsB blocks b t)

/-- Whether some block named `a` references `t` (the `uses` edge). -/
def usesRel (blocks : List Block) (a t : Str) : Bool :=
  a ≠ [] ∧ blocks.any (fun b => b.name = a ∧ refsB blocks b t)

/-- Whether a mutual pair `(akv, b)` of the `uses` map boosts `t`. -/
def boostedB (uses : List (Str × List Str)) (t : Str) : Bool :=
  uses.any (fun akv =>
    akv.2.any (fun b =>
      (mapGet uses b).any (fun x => x = akv.1) ∧ (t = akv.1 ∨ t = b)))

/-- The first line of a file whose trimmed form starts with `syntax`
(the line the `isProto2` pre-scan decides on). -/
def firstSyntaxLine (content : Str) : Option Str :=
  (goSplitNL content).find? (fun l =>
    goHasPrefix (goTrimSpace l) (strLit "syntax"))

/-- Whether the line-based pre-scan reads the legacy dialect off a
line: its trimmed form contains the quoted tag `"proto2"`. -/
def lineDeclaresProto2 (l : Str) : Bool :=
  goContains (goTrimSpace l) (strLit "\"proto2\"")

/-- A string ends with exactly one newline. -/
def endsWithOneNL (s : Str) : Bool :=
  goHasSuffix s (strLit "\n") ∧ ¬ goHasSuffix s (strLit "\n\n")

/-- The non-strict order induced on RPC entries by the grouped mode:
resource key first, full method name second. -/
def rpcGroupedLe (a b : RpcEntry) : Bool :=
  lexLt (rpcGroupKey a.name) (rpcGroupKey b.name) ∨
    (rpcGroupKey a.name = rpcGroupKey b.name ∧
      (a.name = b.name ∨ lexLt a.name b.name))

/-- C1: input on which `Sort` succeeds but its output is rejected by
the second run: the block comment containing a `syntax = "proto2"`
line is attached to `Alpha`, which sorts in front of `Zulu`, so the
output's first syntax-prefixed line declares proto2. -/
def c1Input : Str :=
  strLit "message Zulu \x7b\nsyntax = 1\n\x7d\n\n/*\nsyntax = \"proto2\"\n*/\nmessage Alpha \x7b\n\x7d\n"

/-- C1: the output of the first `Sort` run on `c1Input`. -/
def c1Output : Str :=
  match GoSort c1Input {} with
  | .ret v => v.output
  | _ => []

/-- C2: two same-kind declarations named `A` with different bodies;
`Sort` silently drops one of them. -/
def c2Input : Str :=
  strLit "message A \x7b int32 x = 1; \x7d\nmessage A \x7b\x7d\n"

/-- C2: the output of `Sort` on `c2Input`. -/
def c2Output : Str :=
  match GoSort c2Input {} with
  | .ret v => v.output
  | _ => []

/-- C3: a block list in which a package-qualified (dotted) RPC
reference increments the count of the identically-named local type. -/
def c3Blocks : List Block :=
  [{ kind := .messageKw, name := strLit "a.b",
     declText := strLit "message a.b \x7b\x7d" },
   { kind := .serviceKw, name := strLit "S",
     declText := strLit "service S \x7b rpc M(a.b) returns (a.b); \x7d" }]

/-- C3 witness blocks: `A` and `B` reference each other through one
field each, `C` is referenced by nobody. -/
def c3WitnessBlocks : List Block :=
  [{ kind := .messageKw, name := strLit "A",
     declText := strLit "message A \x7b B b = 1; \x7d" },
   { kind := .messageKw, name := strLit "B",
     declText := strLit "message B \x7b A a = 1; \x7d" },
   { kind := .messageKw, name := strLit "C",
     declText := strLit "message C \x7b\x7d" }]

/-- C4: a declaration with an inline trailing comment followed by a
second declaration. -/
def c4Input : Str :=
  strLit "message A \x7b\x7d // note\nmessage B \x7b\x7d"

/-- C4: the first scanned block of `c4Input`: its declaration text
absorbs the trailing comment together with the terminating newline. -/
def c4BlockA : Block :=
  { kind := .messageKw, name := strLit "A",
    declText := strLit "message A \x7b\x7d // note\n" }

/-- C4: the second scanned block of `c4Input`. -/
def c4BlockB : Block :=
  { kind := .messageKw, name := strLit "B",
    declText := strLit "message B \x7b\x7d" }

/-- C5: an input whose braces are unmatched. -/
def c5Input : Str := strLit "message M \x7b"

/-- C5: the single block the scanner returns for `c5Input`. -/
def c5Block : Block :=
  { kind := .messageKw, name := strLit "M", declText := strLit "message M \x7b" }

/-- C5/C6 witness input: no recognized keyword at the start. -/
def c5WitnessInput : Str := strLit "foo bar"

/-- C6 witness input. -/
def c6WitnessInput : Str := strLit "syntax = \"proto2\";\n"

/-- C7: a comments-only input returned verbatim with two trailing
newlines. -/
def c7InputA : Str := strLit "\n\n"

/-- C7: an input whose interior comment blank lines survive into the
output, yielding two consecutive blank lines between declarations. -/
def c7InputB : Str :=
  strLit "message A \x7b\x7d\n\n\n// x\n\n\n// y\nmessage B \x7b\x7d\n"

/-- C7: the output of `Sort` on `c7InputB`. -/
def c7OutputB : Str :=
  match GoSort c7InputB {} with
  | .ret v => v.output
  | _ => []

/-- C7 witness input. -/
def c7WitnessInput : Str := strLit "message A \x7b\x7d\n"

/-- C7 witness output. -/
def c7WitnessOutput : Str :=
  match GoSort c7WitnessInput {} with
  | .ret v => v.output
  | _ => []

/-- C8 witness entries (names only matter for the keys). -/
def c8Entries : List RpcEntry :=
  [{ name := strLit "ListUsers" }, { name := strLit "GetUser" },
   { name := strLit "CreateUser" }]

/-- C9: a file with an unreferenced message `Orphan`. -/
def c9Input : Str :=
  strLit "syntax = \"proto3\";\n\nmessage Orphan \x7b string v = 1; \x7d\nmessage Used \x7b string v = 1; \x7d\nmessage C1 \x7b Used u = 1; \x7d\nmessage C2 \x7b Used u = 1; \x7d\n"

/-- C9: the blocks scanned from `c9Input`. -/
def c9Blocks : List Block :=
  match ScanFile c9Input with
  | .ret (.ok bs) => bs
  | _ => []

/-- C9: the body blocks of `c9Input` (message/enum/service). -/
def c9Body : List Block :=
  c9Blocks.filter (fun b =>
    b.kind = .messageKw ∨ b.kind = .enumKw ∨ b.kind = .serviceKw)

/-- C9: the output of `Sort` on `c9Input` with default options. -/
def c9Output : Str :=
  match GoSort c9Input {} with
  | .ret v => v.output
  | _ => []

/-- C10: an input ending with a backslash inside a string literal;
`skipString` jumps the cursor two places past the backslash, one byte
beyond the end of the input, and the declaration-text slice
`content[0:10]` on the 9-byte input panics. -/
def c10Input : Str := strLit "import \"\\"

/-! ## Claim theorems -/

set_option maxRecDepth 1000000

/-- C1: the whole transform is not idempotent.  `Sort` succeeds on
`c1Input` (no error, non-empty output), but applying `Sort` to its own
output fails with the unsupported-dialect error and empty output, so
`Sort(Sort(x).output).output ≠ Sort(x).output`: the reordering moves
the block comment containing the line `syntax = "proto2"` in front of
every other syntax-prefixed line, and the second run's line-based
pre-scan then rejects the file. -/
theorem c1_sort_not_idempotent :
    GoSort c1Input {} = .ret { output := c1Output, warnings := [], err := none } ∧
    c1Output ≠ [] ∧
    GoSort c1Output {} =
      .ret { output := [], warnings := [], err := some .proto2 } := by
  decide

/-- C2: content integrity does not hold for every input on which
`Sort` succeeds.  On `c2Input` (two messages named `A` with different
bodies) `Sort` succeeds, yet `verifyContentIntegrity` on the pair
reports that declaration `message:A`'s body differs: the sort dropped
the first `A`'s body in favor of one of them while the original map
kept the other. -/
theorem c2_integrity_violated :
    GoSort c2Input {} = .ret { output := c2Output, warnings := [], err := none } ∧
    verifyContentIntegrity c2Input c2Output =
      .ret (some (.bodyDiffers (strLit "message:A"))) := by
  decide

/-- C4: the scanner consumes and includes the terminating newline when
absorbing a trailing comment.  Scanning `c4Input` yields the two
blocks below, and the first block's `declarationText` ends with the
newline of the comment line, contradicting the claim (and the Go
function's own comment) that the newline is neither included nor
consumed. -/
theorem c4_trailing_newline_included :
    ScanFile c4Input = .ret (.ok [c4BlockA, c4BlockB]) ∧
    goHasSuffix c4BlockA.declText (strLit "\n") = true := by
  decide

/-- C9: the current `Sort` returns no warning for an unreferenced
type.  `c9Input` contains message `Orphan`, which is scanned, is not
an RPC request/response type, and has reference count 0, yet `Sort`
(quiet or not) returns an empty warning list, contradicting the claim,
the legacy variant of `Sort`, and the repository's tests. -/
theorem c9_no_unreferenced_warning :
    GoSort c9Input {} = .ret { output := c9Output, warnings := [], err := none } ∧
    GoSort c9Input { quiet := true } =
      .ret { output := c9Output, warnings := [], err := none } ∧
    (c9Blocks.filter (fun b => b.kind = .messageKw ∧ b.name = strLit "Orphan")).length
      = 1 ∧
    cntGet (BuildRefCounts c9Body) (strLit "Orphan") = 0 := by
  decide

/-- C10: the scanner is not slice-safe.  On the 9-byte input
`import "\` the cursor reaches position 10 (the escape at end of input
advances it two places), and the Go slice `s.content[0:10]` is out of
bounds: `ScanFile` panics instead of returning a block list or an
error. -/
theorem c10_scanfile_panics :
    ScanFile c10Input = .panic := by
  decide

/-- C3 counterexample: the final conjunct of the claim is false as
stated.  In `c3Blocks` the local type is declared with the dotted name
`a.b`, and the service's package-qualified RPC reference `a.b`
increments that local type's count to 1, so a dotted reference can
increment a local type's count. -/
theorem c3_counterexample :
    definedIn c3Blocks (strLit "a.b") = true ∧
    cntGet (BuildRefCounts c3Blocks) (strLit "a.b") = 1 := by
  decide

/-- C5 counterexample: unmatched braces are not a scan error.  The
input `message M {` has an unmatched opening brace, yet `ScanFile`
returns a block list (the single block below), not an error. -/
theorem c5_counterexample :
    ScanFile c5Input = .ret (.ok [c5Block]) := by
  decide

/-- C7 counterexample: both spacing conjuncts of the claim fail.
`Sort` succeeds on the blank input `c7InputA` and returns it verbatim,
ending with two newlines; and on `c7InputB` it succeeds with an output
containing two consecutive blank lines (the blank lines interior to a
preserved comment) between declarations `A` and `B`. -/
theorem c7_counterexample :
    GoSort c7InputA {} =
      .ret { output := strLit "\n\n", warnings := [], err := none } ∧
    GoSort c7InputB {} =
      .ret { output := c7OutputB, warnings := [], err := none } ∧
    goContains c7OutputB (strLit "\n\n\n") = true := by
  decide

/-- Dropping leading characters that satisfy `p` leaves a list whose
head does not satisfy `p`. -/
theorem goTrimLeftP_head (p : Char → Bool) (l : Str) :
    ∀ c cs, goTrimLeftP p l = c :: cs → p c = false := by
  induction l with
  | nil => intro c cs h; simp [goTrimLeftP] at h
  | cons x xs ih =>
      intro c cs h
      by_cases hx : p x
      · exact ih c cs (by simpa [goTrimLeftP, hx] using h)
      · simp only [goTrimLeftP, hx, if_neg, Bool.false_eq_true, not_false_iff,
          ite_false] at h
        cases h
        simpa using hx

/-- Appending one newline to a string with no trailing newline yields
a string ending in exactly one newline. -/
theorem endsWithOneNL_trim (s : Str) :
    endsWithOneNL (goTrimRightCut s (strLit "\n") ++ [ '\n' ]) = true := by
  have hrev :
      (goTrimRightCut s (strLit "\n") ++ [ '\n' ]).reverse =
        '\n' :: goTrimLeftP (fun c => (strLit "\n").contains c) s.reverse := by
    simp [goTrimRightCut, goTrimRightP, List.reverse_append]
  simp only [endsWithOneNL, goHasSuffix, hrev, Bool.and_eq_true, decide_eq_true_eq]
  constructor
  · simp [strLit, goHasPrefix]
  · cases ht : goTrimLeftP (fun c => (strLit "\n").contains c) s.reverse with
    | nil => simp [strLit, goHasPrefix]
    | cons c cs =>
        have hc := goTrimLeftP_head _ _ _ _ ht
        simp only [strLit] at hc ⊢
        simp only [List.contains, List.elem_cons, List.elem_nil] at hc
        simp [goHasPrefix, String.data]
        intro h
        rw [h] at hc
        simp at hc

/-- `Emit` always produces output ending in exactly one newline. -/
theorem endsWithOneNL_Emit (hc : Str) (sb pb : Option Block)
    (ob ib eb body : List Block) :
    endsWithOneNL (Emit hc sb pb ob ib eb body) = true := by
  unfold Emit
  exact endsWithOneNL_trim _

/-- `sortScanned` always produces output ending in exactly one
newline. -/
theorem endsWithOneNL_sortScanned (opts : Options) (blocks : List Block) :
    endsWithOneNL (sortScanned opts blocks) = true := by
  unfold sortScanned
  exact endsWithOneNL_Emit _ _ _ _ _ _ _

/-- C7 (amended): when the scan of the input yields no blocks, `Sort`
returns the input verbatim (whatever its trailing whitespace);
otherwise the successful output ends with exactly one trailing
newline.  (The emitter inserts one blank line before each body block,
but blank lines interior to preserved comments may still produce wider
gaps, as the counterexample shows.) -/
theorem c7_output_spacing_amended :
    ∀ (content : Str) (opts : Options) (v : SortValue),
      GoSort content opts = .ret v → v.err = none →
      (ScanFile content = .ret (.ok []) ∧ v.output = content) ∨
        endsWithOneNL v.output = true := by
  intro content opts v h herr
  unfold GoSort at h
  by_cases hp : isProto2 content
  · rw [if_pos hp] at h
    cases h
    simp at herr
  · rw [if_neg hp] at h
    cases hs : ScanFile content with
    | panic => rw [hs] at h; cases h
    | outOfFuel => rw [hs] at h; cases h
    | ret r =>
        rw [hs] at h
        cases r with
        | error e => dsimp only at h; cases h; simp at herr
        | ok blocks0 =>
            dsimp only at h
            by_cases hb : blocks0.length = 0
            · rw [if_pos hb] at h
              cases h
              left
              have hb0 : blocks0 = [] := List.length_eq_zero.mp hb
              subst hb0
              exact ⟨rfl, rfl⟩
            · rw [if_neg hb] at h
              cases h
              right
              exact endsWithOneNL_sortScanned opts blocks0

/-- C7 witness: the amended theorem applied to the one-message input
`c7WitnessInput`, whose output ends with exactly one newline. -/
theorem c7_output_spacing_witness :
    (ScanFile c7WitnessInput = .ret (.ok []) ∧
      c7WitnessOutput = c7WitnessInput) ∨
      endsWithOneNL c7WitnessOutput = true :=
  c7_output_spacing_amended c7WitnessInput {}
    { output := c7WitnessOutput, warnings := [], err := none }
    (by decide) (by decide)

/-- The `isProto2` line loop decides on the first line whose trimmed
form starts with `syntax`, returning whether that line contains the
quoted legacy tag. -/
theorem isProto2Lines_spec (ls : List Str) :
    isProto2Lines ls =
      ((ls.find? (fun l => goHasPrefix (goTrimSpace l) (strLit "syntax"))).map
        lineDeclaresProto2).getD false := by
  induction ls with
  | nil => rfl
  | cons l ls ih =>
      by_cases hl : goHasPrefix (goTrimSpace l) (strLit "syntax")
      · simp [isProto2Lines, hl, List.find?_cons, lineDeclaresProto2]
      · simp only [isProto2Lines, List.find?_cons] at *
        rw [if_neg (by simpa using hl)]
        simpa [hl] using ih

/-- `isProto2` is the line-based pre-scan of the claim: it holds
exactly when the input's first syntax-prefixed line contains the
quoted `proto2` tag. -/
theorem isProto2_spec (content : Str) :
    isProto2 content =
      ((firstSyntaxLine content).map lineDeclaresProto2).getD false := by
  unfold isProto2 firstSyntaxLine
  exact isProto2Lines_spec _

/-- C6: dialect-error discrimination.  Whenever `Sort` returns (does
not panic), it returns the unsupported-dialect error exactly when the
input's first syntax-prefixed line declares proto2 (the line-based
pre-scan, which runs before tokenizing); the dialect error comes with
empty output; any other failure is a parse error wrapping the
scanner's error, also with empty output; and the two error kinds are
distinct variants of the `SortError` sum type. -/
theorem c6_dialect_error_discrimination :
    ∀ (content : Str) (opts : Options) (v : SortValue),
      GoSort content opts = .ret v →
      ((v.err = some .proto2 ↔
          ((firstSyntaxLine content).map lineDeclaresProto2).getD false = true) ∧
        (v.err = some .proto2 → v.output = []) ∧
        (∀ e, v.err = some (.parse e) →
          ScanFile content = .ret (.error e) ∧ v.output = []) ∧
        (∀ e, SortError.proto2 ≠ SortError.parse e)) := by
  intro content opts v h
  have hspec := isProto2_spec content
  unfold GoSort at h
  by_cases hp : isProto2 content
  · rw [if_pos hp] at h
    cases h
    refine ⟨by simp [← hspec, hp], fun _ => rfl, fun e he => ?_, by intro e h; cases h⟩
    simp at he
  · rw [if_neg hp] at h
    cases hs : ScanFile content with
    | panic => rw [hs] at h; cases h
    | outOfFuel => rw [hs] at h; cases h
    | ret r =>
        rw [hs] at h
        cases r with
        | error e =>
            dsimp only at h
            cases h
            refine ⟨?_, ?_, ?_, by intro e' h; cases h⟩
            · simp only [← hspec]
              constructor
              · intro habs; simp at habs
              · intro habs; exact absurd habs hp
            · intro habs; simp at habs
            · intro e' he'
              simp only [Option.some.injEq, SortError.parse.injEq] at he'
              subst he'
              exact ⟨rfl, rfl⟩
        | ok blocks0 =>
            dsimp only at h
            by_cases hb : blocks0.length = 0
            · rw [if_pos hb] at h
              cases h
              refine ⟨?_, ?_, ?_, by intro e' h; cases h⟩
              · simp only [← hspec]
                constructor
                · intro habs; simp at habs
                · intro habs; exact absurd habs hp
              · intro habs; simp at habs
              · intro e' he'; simp at he'
            · rw [if_neg hb] at h
              cases h
              refine ⟨?_, ?_, ?_, by intro e' h; cases h⟩
              · simp only [← hspec]
                constructor
                · intro habs; simp at habs
                · intro habs; exact absurd habs hp
              · intro habs; simp at habs
              · intro e' he'; simp at he'

/-- C6 witness: the theorem applied to a proto2 file, whose first
syntax line carries the quoted legacy tag. -/
theorem c6_dialect_error_witness :
    ((some SortError.proto2 = some SortError.proto2 ↔
        ((firstSyntaxLine c6WitnessInput).map lineDeclaresProto2).getD false = true) ∧
      (some SortError.proto2 = some SortError.proto2 → ([] : Str) = []) ∧
      (∀ e, some SortError.proto2 = some (SortError.parse e) →
        ScanFile c6WitnessInput = .ret (.error e) ∧ ([] : Str) = []) ∧
      (∀ e, SortError.proto2 ≠ SortError.parse e)) :=
  c6_dialect_error_discrimination c6WitnessInput {}
    { output := [], warnings := [], err := some .proto2 } (by decide)

/-- Every keyword returned by `matchKeyword` has a read mode: the
`default: unknown keyword` branch of `readDeclaration` is dead code. -/
theorem keywordKindPos_isSome (c : Str) (pos : Nat) (kw : Str)
    (hmem : kw ∈ keywordList) : (keywordKindPos c pos kw).isSome := by
  fin_cases hmem <;> rfl

/-- `readDeclaration` errors only when no keyword matches at the
cursor, and the error carries the cursor and the 40-character context
snippet. -/
theorem readDeclaration_error (c : Str) (pos : Nat) (e : ScanError) :
    readDeclaration c pos = .ret (.error e) →
    matchKeyword c pos = none ∧
    e = .expectedKeyword pos (extractRange c pos (min (pos + 40) c.length)) := by
  intro h
  unfold readDeclaration at h
  cases hk : matchKeyword c pos with
  | none =>
      rw [hk] at h
      dsimp only at h
      cases h
      exact ⟨rfl, rfl⟩
  | some kw =>
      rw [hk] at h
      dsimp only at h
      have hmem : kw ∈ keywordList := List.mem_of_find?_eq_some hk
      have hsome := keywordKindPos_isSome c pos kw hmem
      cases hkp : keywordKindPos c pos kw with
      | none => rw [hkp] at hsome; simp at hsome
      | some kp =>
          rw [hkp] at h
          dsimp only at h
          cases hsl : goSlice c pos kp.2 with
          | none =>
              rw [hsl] at h
              cases h
          | some dt =>
              rw [hsl] at h
              dsimp only at h
              cases h

/-- Every error of the scan loop is an unrecognized-keyword error at
an in-bounds cursor, carrying that cursor and its context snippet. -/
theorem scanAux_error_shape :
    ∀ (fuel : Nat) (c : Str) (pos : Nat) (acc : List Block) (e : ScanError),
      scanAux fuel c pos acc = .ret (.error e) →
      ∃ p, p < c.length ∧ matchKeyword c p = none ∧
        e = .expectedKeyword p (extractRange c p (min (p + 40) c.length)) := by
  intro fuel
  induction fuel with
  | zero => intro c pos acc e h; cases h
  | succ fuel ih =>
      intro c pos acc e h
      unfold scanAux at h
      by_cases hpos : pos < c.length
      · rw [if_pos hpos] at h
        by_cases hend : (collectComments c pos).2 ≥ c.length
        · rw [if_pos hend] at h
          by_cases htr : goTrimSpace (collectComments c pos).1 ≠ []
          · rw [if_pos htr] at h; cases h
          · rw [if_neg htr] at h; cases h
        · rw [if_neg hend] at h
          cases hrd : readDeclaration c (collectComments c pos).2 with
          | panic => rw [hrd] at h; cases h
          | outOfFuel => rw [hrd] at h; cases h
          | ret r =>
              rw [hrd] at h
              cases r with
              | error e0 =>
                  dsimp only at h
                  cases h
                  obtain ⟨hkw, he⟩ := readDeclaration_error c _ _ hrd
                  exact ⟨(collectComments c pos).2, by omega, hkw, he⟩
              | ok bp =>
                  dsimp only at h
                  exact ih c bp.2 _ e h
      · rw [if_neg hpos] at h; cases h

/-- When the token after the leading comments and whitespace is not a
recognized keyword, `ScanFile` fails right there, reporting that
cursor and its snippet. -/
theorem scanFile_error_at_start (c : Str)
    (hlt : (collectComments c 0).2 < c.length)
    (hkw : matchKeyword c (collectComments c 0).2 = none) :
    ScanFile c = .ret (.error (.expectedKeyword (collectComments c 0).2
      (extractRange c (collectComments c 0).2
        (min ((collectComments c 0).2 + 40) c.length)))) := by
  have h0 : 0 < c.length := lt_of_le_of_lt (Nat.zero_le _) hlt
  show scanAux (c.length + 2) c 0 [] = _
  rw [show c.length + 2 = (c.length + 1) + 1 from rfl]
  unfold scanAux
  rw [if_pos h0, if_neg (not_le.mpr hlt)]
  unfold readDeclaration
  rw [hkw]

/-- C5 (amended): `ScanFile` returns an error exactly for the
unrecognized-keyword condition, and the error always carries the
cursor position and a snippet of the offending text.  (Unmatched
braces are consumed to end of input without an error, as the
counterexample shows.)  Part one: every returned error is an
unrecognized-keyword error at an in-bounds cursor with that cursor's
snippet; part two: if, after exhausting comments and whitespace from
the start of the input, the next token is not a recognized keyword,
`ScanFile` returns exactly that error. -/
theorem c5_scan_error_characterization :
    (∀ (c : Str) (e : ScanError), ScanFile c = .ret (.error e) →
      ∃ p, p < c.length ∧ matchKeyword c p = none ∧
        e = .expectedKeyword p (extractRange c p (min (p + 40) c.length))) ∧
    (∀ c : Str, (collectComments c 0).2 < c.length →
      matchKeyword c (collectComments c 0).2 = none →
      ScanFile c = .ret (.error (.expectedKeyword (collectComments c 0).2
        (extractRange c (collectComments c 0).2
          (min ((collectComments c 0).2 + 40) c.length))))) :=
  ⟨fun c e h => scanAux_error_shape _ c 0 [] e h, scanFile_error_at_start⟩

/-- C5 witness: the characterization applied to the input `foo bar`,
which fails with the expected-keyword error at position 0. -/
theorem c5_scan_error_witness :
    ScanFile c5WitnessInput = .ret (.error (.expectedKeyword
      (collectComments c5WitnessInput 0).2
      (extractRange c5WitnessInput (collectComments c5WitnessInput 0).2
        (min ((collectComments c5WitnessInput 0).2 + 40) c5WitnessInput.length)))) :=
  c5_scan_error_characterization.2 c5WitnessInput (by decide) (by decide)


theorem lexLt_asymm : ∀ a b : Str, lexLt a b = true → lexLt b a = false := by
  intro a
  induction a with
  | nil => intro b h; cases b <;> simp [lexLt] at *
  | cons c cs ih =>
      intro b h
      cases b with
      | nil => simp [lexLt] at h
      | cons d ds =>
          simp only [lexLt] at h ⊢
          by_cases h1 : c.toNat < d.toNat
          · rw [if_neg (by omega), if_pos h1]
          · rw [if_neg h1] at h
            by_cases h2 : d.toNat < c.toNat
            · rw [if_pos h2] at h; cases h
            · rw [if_neg h2] at h
              rw [if_neg h1, if_neg h2]
              exact ih ds h

theorem lexLt_trans : ∀ a b c : Str, lexLt a b = true → lexLt b c = true → lexLt a c = true := by
  intro a
  induction a with
  | nil =>
      intro b c h1 h2
      cases b with
      | nil => simp [lexLt] at h1
      | cons d ds => cases c with
        | nil => simp [lexLt] at h2
        | cons e es => simp [lexLt]
  | cons x xs ih =>
      intro b c h1 h2
      cases b with
      | nil => simp [lexLt] at h1
      | cons d ds =>
          cases c with
          | nil => simp [lexLt] at h2
          | cons e es =>
              simp only [lexLt] at h1 h2 ⊢
              by_cases hxd : x.toNat < d.toNat
              · by_cases hde : d.toNat < e.toNat
                · rw [if_pos (by omega)]
                · rw [if_neg hde] at h2
                  by_cases hed : e.toNat < d.toNat
                  · rw [if_pos hed] at h2; cases h2
                  · rw [if_pos (by omega)]
              · rw [if_neg hxd] at h1
                by_cases hdx : d.toNat < x.toNat
                · rw [if_pos hdx] at h1; cases h1
                · rw [if_neg hdx] at h1
                  by_cases hde : d.toNat < e.toNat
                  · rw [if_pos (by omega)]
                  · rw [if_neg hde] at h2
                    by_cases hed : e.toNat < d.toNat
                    · rw [if_pos hed] at h2; cases h2
                    · rw [if_neg hed] at h2
                      rw [if_neg (by omega), if_neg (by omega)]
                      exact ih ds es h1 h2

theorem lexLt_connex : ∀ a b : Str, lexLt a b = false → lexLt b a = false → a = b := by
  intro a
  induction a with
  | nil => intro b h1 _; cases b with
    | nil => rfl
    | cons d ds => simp [lexLt] at h1
  | cons c cs ih =>
      intro b h1 h2
      cases b with
      | nil => simp [lexLt] at h2
      | cons d ds =>
          simp only [lexLt] at h1 h2
          by_cases hcd : c.toNat < d.toNat
          · rw [if_pos hcd] at h1; cases h1
          · rw [if_neg hcd] at h1
            by_cases hdc : d.toNat < c.toNat
            · rw [if_pos hdc] at h2; cases h2
            · rw [if_neg hdc, if_neg hcd] at h2
              rw [if_neg hdc] at h1
              have ht : c.toNat = d.toNat := by omega
              have hc : c = d := Char.ext (UInt32.ext ht)
              rw [hc, ih ds h1 h2]

theorem lexLt_irrefl (a : Str) : lexLt a a = false := by
  cases h : lexLt a a with
  | false => rfl
  | true =>
      have h2 := lexLt_asymm a a h
      rw [h2] at h; cases h

section SortLemmas

variable {α : Type} (less : α → α → Bool)

theorem insertStable_perm (x : α) :
    ∀ l : List α, (insertStable less x l).Perm (x :: l) := by
  intro l
  induction l with
  | nil => simp [insertStable]
  | cons y ys ih =>
      by_cases h : less x y
      · simp [insertStable, h]
      · simp only [insertStable, h, Bool.false_eq_true, not_false_iff, ite_false]
        exact List.Perm.trans (List.Perm.cons y ih) (List.Perm.swap x y ys)

theorem sortSliceAux_perm :
    ∀ (l : List α) (acc : List α),
      (l.foldl (fun acc x => insertStable less x acc) acc).Perm (acc ++ l) := by
  intro l
  induction l with
  | nil => intro acc; simp
  | cons y ys ih =>
      intro acc
      exact List.Perm.trans (ih (insertStable less y acc))
        (List.Perm.append_right ys (insertStable_perm less y acc) |>.trans
          List.perm_middle.symm)

theorem sortSlice_perm (l : List α) : (sortSlice less l).Perm l := by
  simpa [sortSlice] using sortSliceAux_perm less l []

theorem insertStable_sorted
    (htrans : ∀ a b c, less a b = true → less b c = true → less a c = true)
    (hasymm : ∀ a b, less a b = true → less b a = false) (x : α) :
    ∀ l : List α, l.Pairwise (fun a b => less b a = false) →
      (insertStable less x l).Pairwise (fun a b => less b a = false) := by
  intro l
  induction l with
  | nil => intro _; simp [insertStable]
  | cons y ys ih =>
      intro hp
      rw [List.pairwise_cons] at hp
      by_cases h : less x y
      · simp only [insertStable, h, ite_true]
        rw [List.pairwise_cons]
        refine ⟨?_, List.pairwise_cons.mpr hp⟩
        intro z hz
        rcases List.mem_cons.mp hz with rfl | hz
        · exact hasymm x z h
        · cases hzx : less z x with
          | false => rfl
          | true =>
              have : less z y = true := htrans z x y hzx h
              rw [hp.1 z hz] at this
              cases this
      · simp only [insertStable, h, Bool.false_eq_true, not_false_iff, ite_false]
        rw [List.pairwise_cons]
        constructor
        · intro z hz
          have hmem := (insertStable_perm less x ys).mem_iff.mp hz
          rcases List.mem_cons.mp hmem with rfl | hmem
          · simpa using h
          · exact hp.1 z hmem
        · exact ih hp.2

theorem sortSlice_sorted
    (htrans : ∀ a b c, less a b = true → less b c = true → less a c = true)
    (hasymm : ∀ a b, less a b = true → less b a = false) (l : List α) :
    (sortSlice less l).Pairwise (fun a b => less b a = false) := by
  suffices h : ∀ acc, acc.Pairwise (fun a b => less b a = false) →
      (l.foldl (fun acc x => insertStable less x acc) acc).Pairwise
        (fun a b => less b a = false) by
    exact h [] (by simp)
  induction l with
  | nil => intro acc h; simpa using h
  | cons y ys ih =>
      intro acc h
      exact ih (insertStable less y acc) (insertStable_sorted less htrans hasymm y acc h)

end SortLemmas

theorem insertStable_filter {α : Type} (less : α → α → Bool) (P : α → Bool)
    (hnegtrans : ∀ a b c, less a b = false → less b c = false → less a c = false)
    (hincomp : ∀ a b, P a = true → P b = true → less a b = false) (x : α) :
    ∀ l : List α, l.Pairwise (fun a b => less b a = false) →
      (insertStable less x l).filter P =
        (if P x then l.filter P ++ [x] else l.filter P) := by
  intro l
  induction l with
  | nil =>
      intro _
      by_cases hx : P x <;> simp [insertStable, List.filter, hx]
  | cons y ys ih =>
      intro hp
      rw [List.pairwise_cons] at hp
      by_cases hxy : less x y
      · simp only [insertStable, hxy, ite_true]
        by_cases hx : P x
        · have hnone : ∀ z ∈ y :: ys, ¬ (P z = true) := by
            intro z hz hPz
            rcases List.mem_cons.mp hz with rfl | hz
            · have := hincomp x z hx hPz
              rw [this] at hxy; cases hxy
            · have h1 := hincomp x z hx hPz
              have h2 := hp.1 z hz
              have := hnegtrans x z y h1 h2
              rw [this] at hxy; cases hxy
          have hfe : (y :: ys).filter P = [] := by
            rw [List.filter_eq_nil_iff]
            exact hnone
          rw [hfe]
          simp [List.filter_cons, hx, hfe]
        · simp [List.filter_cons, hx]
      · simp only [insertStable, hxy, Bool.false_eq_true, not_false_iff, ite_false]
        have hys := ih hp.2
        by_cases hx : P x
        · rw [if_pos hx] at hys
          by_cases hy : P y <;>
            simp [List.filter_cons, hy, hys, hx]
        · rw [if_neg hx] at hys
          by_cases hy : P y <;>
            simp [List.filter_cons, hy, hys, hx]

theorem sortSlice_filter {α : Type} (less : α → α → Bool) (P : α → Bool)
    (htrans : ∀ a b c, less a b = true → less b c = true → less a c = true)
    (hasymm : ∀ a b, less a b = true → less b a = false)
    (hnegtrans : ∀ a b c, less a b = false → less b c = false → less a c = false)
    (hincomp : ∀ a b, P a = true → P b = true → less a b = false) (l : List α) :
    (sortSlice less l).filter P = l.filter P := by
  suffices h : ∀ acc, acc.Pairwise (fun a b => less b a = false) →
      (l.foldl (fun acc x => insertStable less x acc) acc).filter P =
        acc.filter P ++ l.filter P by
    simpa [sortSlice] using h [] (by simp)
  induction l with
  | nil => intro acc _; simp
  | cons y ys ih =>
      intro acc hacc
      have h1 := ih (insertStable less y acc)
        (insertStable_sorted less htrans hasymm y acc hacc)
      have h2 := insertStable_filter less P hnegtrans hincomp y acc hacc
      simp only [List.foldl_cons]
      rw [h1, h2]
      by_cases hy : P y <;> simp [List.filter_cons, hy]

theorem rpcGroupedLess_asymm (a b : RpcEntry) (h : rpcGroupedLess a b = true) :
    rpcGroupedLess b a = false := by
  simp only [rpcGroupedLess] at h ⊢
  by_cases hk : rpcGroupKey a.name = rpcGroupKey b.name
  · rw [if_neg (by simp [hk])] at h
    rw [if_neg (by simp [hk])]
    exact lexLt_asymm _ _ h
  · rw [if_pos hk] at h
    rw [if_pos (fun he => hk he.symm)]
    exact lexLt_asymm _ _ h

theorem rpcGroupedLess_trans (a b c : RpcEntry) (h1 : rpcGroupedLess a b = true)
    (h2 : rpcGroupedLess b c = true) : rpcGroupedLess a c = true := by
  simp only [rpcGroupedLess] at h1 h2 ⊢
  by_cases hab : rpcGroupKey a.name = rpcGroupKey b.name
  · rw [if_neg (by simp [hab])] at h1
    by_cases hbc : rpcGroupKey b.name = rpcGroupKey c.name
    · rw [if_neg (by simp [hbc])] at h2
      rw [if_neg (by simp [hab, hbc])]
      exact lexLt_trans _ _ _ h1 h2
    · rw [if_pos hbc] at h2
      rw [if_pos (fun he => hbc (hab ▸ he)), hab]
      exact h2
  · rw [if_pos hab] at h1
    by_cases hbc : rpcGroupKey b.name = rpcGroupKey c.name
    · rw [if_pos (fun he => hab (hbc ▸ he)), ← hbc]
      exact h1
    · rw [if_pos hbc] at h2
      have h3 := lexLt_trans _ _ _ h1 h2
      have hac : rpcGroupKey a.name ≠ rpcGroupKey c.name := by
        intro he
        rw [he] at h3
        rw [lexLt_irrefl] at h3
        cases h3
      rw [if_pos hac]
      exact h3

theorem lexLt_negtrans (a b c : Str) (h1 : lexLt a b = false) (h2 : lexLt b c = false) :
    lexLt a c = false := by
  cases hac : lexLt a c with
  | false => rfl
  | true =>
      exfalso
      cases hba : lexLt b a with
      | true =>
          have hbc := lexLt_trans b a c hba hac
          rw [hbc] at h2; cases h2
      | false =>
          have hab : a = b := lexLt_connex a b h1 hba
          rw [← hab, hac] at h2; cases h2

theorem rpcGroupedLess_negtrans (a b c : RpcEntry) (h1 : rpcGroupedLess a b = false)
    (h2 : rpcGroupedLess b c = false) : rpcGroupedLess a c = false := by
  simp only [rpcGroupedLess] at h1 h2 ⊢
  by_cases hab : rpcGroupKey a.name = rpcGroupKey b.name
  · rw [if_neg (by simp [hab])] at h1
    by_cases hbc : rpcGroupKey b.name = rpcGroupKey c.name
    · rw [if_neg (by simp [hbc])] at h2
      rw [if_neg (by simp [hab, hbc])]
      exact lexLt_negtrans _ _ _ h1 h2
    · rw [if_pos hbc] at h2
      rw [if_pos (fun he => hbc (hab ▸ he)), hab]
      exact h2
  · rw [if_pos hab] at h1
    by_cases hbc : rpcGroupKey b.name = rpcGroupKey c.name
    · rw [if_pos (fun he => hab (hbc ▸ he)), ← hbc]
      exact h1
    · rw [if_pos hbc] at h2
      by_cases hac : rpcGroupKey a.name = rpcGroupKey c.name
      · exfalso
        have := lexLt_connex _ _ h1 (by rw [← hac] at h2; exact h2)
        exact hab this
      · rw [if_pos hac]
        exact lexLt_negtrans _ _ _ h1 h2

theorem grouped_not_lt_imp_le (a b : RpcEntry) (h : rpcGroupedLess b a = false) :
    rpcGroupedLe a b = true := by
  simp only [rpcGroupedLess] at h
  simp only [rpcGroupedLe, decide_eq_true_eq]
  by_cases hk : rpcGroupKey a.name = rpcGroupKey b.name
  · rw [if_neg (by simp [hk])] at h
    cases hab : lexLt a.name b.name with
    | true => exact Or.inr ⟨hk, Or.inr rfl⟩
    | false => exact Or.inr ⟨hk, Or.inl (lexLt_connex _ _ hab h)⟩
  · rw [if_pos (fun he => hk he.symm)] at h
    cases hk2 : lexLt (rpcGroupKey a.name) (rpcGroupKey b.name) with
    | true => exact Or.inl rfl
    | false => exact absurd (lexLt_connex _ _ hk2 h) hk

theorem goHasPrefix_comparable : ∀ (s p q : Str), goHasPrefix s p = true →
    goHasPrefix s q = true → p.length ≤ q.length → goHasPrefix q p = true := by
  intro s
  induction s with
  | nil =>
      intro p q hp _ _
      cases p with
      | nil => cases q <;> simp [goHasPrefix]
      | cons _ _ => simp [goHasPrefix] at hp
  | cons c cs ih =>
      intro p q hp hq hlen
      cases p with
      | nil => cases q <;> simp [goHasPrefix]
      | cons a as =>
          cases q with
          | nil => simp at hlen
          | cons b bs =>
              simp only [goHasPrefix, Bool.and_eq_true, decide_eq_true_eq] at hp hq ⊢
              obtain ⟨hca, hcs⟩ := hp
              obtain ⟨hcb, hbs⟩ := hq
              exact ⟨hcb.symm.trans hca, ih as bs hcs hbs (by simpa using hlen)⟩

theorem goHasPrefix_append_drop : ∀ (s p : Str), goHasPrefix s p = true →
    p ++ s.drop p.length = s := by
  intro s
  induction s with
  | nil =>
      intro p hp
      cases p with
      | nil => rfl
      | cons _ _ => simp [goHasPrefix] at hp
  | cons c cs ih =>
      intro p hp
      cases p with
      | nil => rfl
      | cons a as =>
          simp only [goHasPrefix, Bool.and_eq_true, decide_eq_true_eq] at hp
          obtain ⟨hca, hcs⟩ := hp
          simp only [List.length_cons, List.drop_succ_cons, List.cons_append, hca]
          rw [ih as hcs]

theorem rpcVerbPrefixes_prefix_unique :
    (rpcVerbPrefixes.all (fun p => rpcVerbPrefixes.all (fun q =>
      !(goHasPrefix q p) || decide (p = q)))) = true := by decide

theorem verbPrefix_unique (name p q : Str) (hp : p ∈ rpcVerbPrefixes)
    (hq : q ∈ rpcVerbPrefixes) (h1 : goHasPrefix name p = true)
    (h2 : goHasPrefix name q = true) : p = q := by
  have hall := rpcVerbPrefixes_prefix_unique
  rw [List.all_eq_true] at hall
  rcases le_total p.length q.length with hle | hle
  · have hpq := goHasPrefix_comparable name p q h1 h2 hle
    have := hall p hp
    rw [List.all_eq_true] at this
    have h3 := this q hq
    rw [hpq] at h3
    simpa using h3
  · have hqp := goHasPrefix_comparable name q p h2 h1 hle
    have := hall q hq
    rw [List.all_eq_true] at this
    have h3 := this p hp
    rw [hqp] at h3
    have : q = p := by simpa using h3
    exact this.symm

theorem rpcGroupKey_strips (name p : Str) (hp : p ∈ rpcVerbPrefixes)
    (hs : verbStrips name p = true) :
    rpcGroupKey name = name.drop p.length ∧ p ++ rpcGroupKey name = name := by
  have hpre : goHasPrefix name p = true := by
    simp only [verbStrips, Bool.decide_and, Bool.and_eq_true, decide_eq_true_eq] at hs
    exact hs.1
  have hkey : rpcGroupKey name = name.drop p.length := by
    unfold rpcGroupKey
    cases hf : rpcVerbPrefixes.find? (fun q => verbStrips name q) with
    | none =>
        exfalso
        have := List.find?_eq_none.mp hf p hp
        rw [hs] at this; exact this rfl
    | some q =>
        have hq1 := List.find?_some hf
        have hq2 := List.mem_of_find?_eq_some hf
        have hqpre : goHasPrefix name q = true := by
          simp only [verbStrips, Bool.decide_and, Bool.and_eq_true, decide_eq_true_eq] at hq1
          exact hq1.1
        rw [verbPrefix_unique name q p hq2 hp hqpre hpre]
  exact ⟨hkey, by rw [hkey]; exact goHasPrefix_append_drop name p hpre⟩

theorem rpcGroupKey_id (name : Str)
    (h : ∀ p ∈ rpcVerbPrefixes, verbStrips name p = false) : rpcGroupKey name = name := by
  unfold rpcGroupKey
  rw [List.find?_eq_none.mpr (by intro q hq; rw [h q hq]; simp)]

/-- C8: grouped RPC sort. For every entry list, the grouped sort of
`SortRPCsInService` permutes the entries; orders them by resource key
first and full method name second; is stable (entries with the same
method name, hence the same key, keep their relative order); and the
resource key is the name with a matching verb prefix stripped whenever
some prefix of the fixed list satisfies the uppercase-after and
longer-than conditions (the stripped prefix plus the key reassemble the
name), and the name itself when no prefix matches. -/
theorem c8_grouped_rpc_sort (entries : List RpcEntry) :
    (sortSlice rpcGroupedLess entries).Perm entries ∧
    (sortSlice rpcGroupedLess entries).Pairwise (fun a b => rpcGroupedLe a b = true) ∧
    (∀ n : Str, (sortSlice rpcGroupedLess entries).filter (fun e => decide (e.name = n)) =
      entries.filter (fun e => decide (e.name = n))) ∧
    (∀ name p, p ∈ rpcVerbPrefixes → verbStrips name p = true →
      rpcGroupKey name = name.drop p.length ∧ p ++ rpcGroupKey name = name) ∧
    (∀ name, (∀ p ∈ rpcVerbPrefixes, verbStrips name p = false) →
      rpcGroupKey name = name) := by
  refine ⟨sortSlice_perm rpcGroupedLess entries, ?_, ?_, ?_, ?_⟩
  · exact (sortSlice_sorted rpcGroupedLess rpcGroupedLess_trans rpcGroupedLess_asymm
      entries).imp (fun h => grouped_not_lt_imp_le _ _ h)
  · intro n
    refine sortSlice_filter rpcGroupedLess _ rpcGroupedLess_trans rpcGroupedLess_asymm
      rpcGroupedLess_negtrans ?_ entries
    intro a b ha hb
    have ha' : a.name = n := of_decide_eq_true ha
    have hb' : b.name = n := of_decide_eq_true hb
    simp only [rpcGroupedLess, ha', hb', ne_eq, not_true_eq_false, ite_false,
      if_neg (fun h : ¬ (rpcGroupKey n = rpcGroupKey n) => h rfl)]
    exact lexLt_irrefl n
  · intro name p hp hs
    exact rpcGroupKey_strips name p hp hs
  · intro name h
    exact rpcGroupKey_id name h

/-- C8 witness: the theorem applied to the concrete entry list
`[ListUsers, GetUser, CreateUser]`, whose grouped sort interleaves the
three verbs on the shared key `User`, plus concrete key computations. -/
theorem c8_grouped_rpc_sort_witness :
    (sortSlice rpcGroupedLess c8Entries).Perm c8Entries ∧
    rpcGroupKey (strLit "CreateUser") = strLit "User" ∧
    strLit "Create" ++ rpcGroupKey (strLit "CreateUser") = strLit "CreateUser" ∧
    rpcGroupKey (strLit "Ping") = strLit "Ping" := by
  obtain ⟨hperm, _, _, hkey, hnone⟩ := c8_grouped_rpc_sort c8Entries
  refine ⟨hperm, ?_, ?_, ?_⟩
  · exact (hkey (strLit "CreateUser") (strLit "Create") (by decide) (by decide)).1
  · exact (hkey (strLit "CreateUser") (strLit "Create") (by decide) (by decide)).2
  · exact hnone (strLit "Ping") (by decide)



theorem find?_map_key {β : Type} (m : List (Str × β)) (t : Str) (f : Str × β → Str × β)
    (hkey : ∀ kv, (f kv).1 = kv.1) :
    (m.map f).find? (fun kv => decide (kv.1 = t)) =
      (m.find? (fun kv => decide (kv.1 = t))).map f := by
  induction m with
  | nil => rfl
  | cons kv m ih =>
      simp only [List.map_cons, List.find?_cons, hkey]
      cases h : decide (kv.1 = t) with
      | true => rfl
      | false => exact ih

theorem find?_key_append_none {β : Type} (m l' : List (Str × β)) (p : Str × β → Bool)
    (h : m.find? p = none) : (m ++ l').find? p = l'.find? p := by
  induction m with
  | nil => rfl
  | cons kv m ih =>
      cases hp : p kv with
      | true => simp only [List.find?_cons, hp] at h; cases h
      | false =>
          simp only [List.find?_cons, hp] at h
          simp only [List.cons_append, List.find?_cons, hp]
          exact ih h

theorem any_key_false_find?_none {β : Type} (m : List (Str × β)) (k : Str)
    (h : m.any (fun kv => decide (kv.1 = k)) = false) :
    m.find? (fun kv => decide (kv.1 = k)) = none := by
  rw [List.find?_eq_none]
  intro kv hmem hp
  rw [List.any_eq_false] at h
  exact h kv hmem hp

theorem find?_key_append_single {β : Type} (m : List (Str × β)) (k t : Str) (v : β)
    (h : t ≠ k) :
    (m ++ [(k, v)]).find? (fun kv => decide (kv.1 = t)) =
      m.find? (fun kv => decide (kv.1 = t)) := by
  induction m with
  | nil =>
      simp only [List.nil_append, List.find?_cons, List.find?_nil]
      rw [decide_eq_false (fun he : k = t => h he.symm)]
  | cons kv m ih =>
      cases hp : decide (kv.1 = t) with
      | true => simp only [List.cons_append, List.find?_cons, hp]
      | false => simp only [List.cons_append, List.find?_cons, hp]; exact ih

theorem cntGet_cntIncr_self (m : List (Str × Nat)) (k : Str) :
    cntGet (cntIncr m k) k = cntGet m k + 1 := by
  unfold cntIncr
  cases h : m.any (fun kv => decide (kv.1 = k)) with
  | true =>
      rw [if_pos rfl]
      unfold cntGet
      rw [find?_map_key m k _ (by intro kv; by_cases hkv : kv.1 = k <;> simp [hkv])]
      cases hf : m.find? (fun kv => decide (kv.1 = k)) with
      | none =>
          exfalso
          rw [List.any_eq_true] at h
          obtain ⟨kv, hmem, hp⟩ := h
          rw [List.find?_eq_none] at hf
          exact hf kv hmem hp
      | some kv =>
          have hk := List.find?_some hf
          rw [decide_eq_true_eq] at hk
          simp [hk]
  | false =>
      rw [if_neg Bool.false_ne_true]
      unfold cntGet
      rw [find?_key_append_none m _ _ (any_key_false_find?_none m k h),
        any_key_false_find?_none m k h]
      simp

theorem cntGet_cntIncr_other (m : List (Str × Nat)) (k t : Str) (h : t ≠ k) :
    cntGet (cntIncr m k) t = cntGet m t := by
  unfold cntIncr
  cases hany : m.any (fun kv => decide (kv.1 = k)) with
  | true =>
      rw [if_pos rfl]
      unfold cntGet
      rw [find?_map_key m t _ (by intro kv; by_cases hkv : kv.1 = k <;> simp [hkv])]
      cases hf : m.find? (fun kv => decide (kv.1 = t)) with
      | none => rfl
      | some kv =>
          have hk := List.find?_some hf
          rw [decide_eq_true_eq] at hk
          have : kv.1 ≠ k := by rw [hk]; exact h
          simp [this]
  | false =>
      rw [if_neg Bool.false_ne_true]
      unfold cntGet
      rw [find?_key_append_single m k t 1 h]

theorem cntGet_cntSet_self (m : List (Str × Nat)) (k : Str) (v : Nat) :
    cntGet (cntSet m k v) k = v := by
  unfold cntSet
  cases h : m.any (fun kv => decide (kv.1 = k)) with
  | true =>
      rw [if_pos rfl]
      unfold cntGet
      rw [find?_map_key m k _ (by intro kv; by_cases hkv : kv.1 = k <;> simp [hkv])]
      cases hf : m.find? (fun kv => decide (kv.1 = k)) with
      | none =>
          exfalso
          rw [List.any_eq_true] at h
          obtain ⟨kv, hmem, hp⟩ := h
          rw [List.find?_eq_none] at hf
          exact hf kv hmem hp
      | some kv =>
          have hk := List.find?_some hf
          rw [decide_eq_true_eq] at hk
          simp [hk]
  | false =>
      rw [if_neg Bool.false_ne_true]
      unfold cntGet
      rw [find?_key_append_none m _ _ (any_key_false_find?_none m k h)]
      simp

theorem cntGet_cntSet_other (m : List (Str × Nat)) (k t : Str) (v : Nat) (h : t ≠ k) :
    cntGet (cntSet m k v) t = cntGet m t := by
  unfold cntSet
  cases hany : m.any (fun kv => decide (kv.1 = k)) with
  | true =>
      rw [if_pos rfl]
      unfold cntGet
      rw [find?_map_key m t _ (by intro kv; by_cases hkv : kv.1 = k <;> simp [hkv])]
      cases hf : m.find? (fun kv => decide (kv.1 = t)) with
      | none => rfl
      | some kv =>
          have hk := List.find?_some hf
          rw [decide_eq_true_eq] at hk
          have : kv.1 ≠ k := by rw [hk]; exact h
          simp [this]
  | false =>
      rw [if_neg Bool.false_ne_true]
      unfold cntGet
      rw [find?_key_append_single m k t v h]

theorem cntGet_cntMax2 (m : List (Str × Nat)) (k t : Str) :
    cntGet (cntMax2 m k) t =
      if t = k ∧ cntGet m t < 2 then 2 else cntGet m t := by
  unfold cntMax2
  by_cases ht : t = k
  · subst ht
    by_cases h2 : cntGet m t < 2
    · rw [if_pos h2, if_pos ⟨rfl, h2⟩, cntGet_cntSet_self]
    · rw [if_neg h2, if_neg (by intro hc; exact h2 hc.2)]
  · by_cases h2 : cntGet m k < 2
    · rw [if_pos h2, if_neg (by intro hc; exact ht hc.1)]
      exact cntGet_cntSet_other m k t 2 ht
    · rw [if_neg h2, if_neg (by intro hc; exact ht hc.1)]

theorem cntGet_cntMax2_mono (m : List (Str × Nat)) (k t : Str) :
    cntGet m t ≤ cntGet (cntMax2 m k) t := by
  rw [cntGet_cntMax2]
  by_cases h : t = k ∧ cntGet m t < 2
  · rw [if_pos h]; omega
  · rw [if_neg h]

theorem cntGet_cntMax2_self (m : List (Str × Nat)) (k : Str) :
    2 ≤ cntGet (cntMax2 m k) k := by
  rw [cntGet_cntMax2]
  by_cases h : cntGet m k < 2
  · rw [if_pos ⟨rfl, h⟩]
  · rw [if_neg (by intro hc; exact h hc.2)]; omega


theorem usesAdd_key_preserves (a t : Str) :
    ∀ kv : Str × List Str,
      ((fun kv => if kv.1 = a then
          (kv.1, if kv.2.any (fun x => x = t) then kv.2 else kv.2 ++ [t])
        else kv) kv).1 = kv.1 := by
  intro kv
  by_cases hkv : kv.1 = a <;> simp [hkv]

theorem mapGet_usesAdd (m : List (Str × List Str)) (a t a' s : Str) :
    ((mapGet (usesAdd m a t) a').any (fun x => x = s)) =
      ((mapGet m a').any (fun x => x = s) || (decide (a' = a) && decide (s = t))) := by
  unfold usesAdd
  cases hany : m.any (fun kv => decide (kv.1 = a)) with
  | true =>
      rw [if_pos rfl]
      unfold mapGet
      rw [find?_map_key m a' _ (usesAdd_key_preserves a t)]
      cases hf : m.find? (fun kv => decide (kv.1 = a')) with
      | none =>
          by_cases ha : a' = a
          · subst ha
            exfalso
            rw [List.any_eq_true] at hany
            obtain ⟨kv, hmem, hp⟩ := hany
            rw [List.find?_eq_none] at hf
            exact hf kv hmem hp
          · simp [ha]
      | some kv =>
          have hk := List.find?_some hf
          rw [decide_eq_true_eq] at hk
          by_cases ha : a' = a
          · subst ha
            simp only [Option.map, Option.getD]
            rw [if_pos hk]
            dsimp only
            cases hvt : kv.2.any (fun x => x = t) with
            | true =>
                rw [if_pos rfl]
                by_cases hst : s = t
                · subst hst
                  rw [hvt]
                  simp
                · simp [hst]
            | false =>
                rw [if_neg Bool.false_ne_true]
                rw [List.any_append]
                by_cases hst : s = t
                · subst hst
                  rw [hvt]
                  simp
                · simp [hst, show t ≠ s from fun he => hst he.symm]
          · have hne : kv.1 ≠ a := by rw [hk]; exact ha
            simp only [Option.map, Option.getD]
            rw [if_neg hne]
            simp [ha]
  | false =>
      rw [if_neg Bool.false_ne_true]
      unfold mapGet
      by_cases ha : a' = a
      · subst ha
        rw [find?_key_append_none m _ _ (any_key_false_find?_none m a' hany),
          any_key_false_find?_none m a' hany]
        by_cases hst : s = t
        · subst hst
          simp [List.find?]
        · simp [List.find?, hst, show t ≠ s from fun he => hst he.symm]
      · rw [find?_key_append_single m a a' [t] ha]
        simp [ha]


theorem countBlockRefs_cntGet (d : Str → Bool) (b : Block) (t : Str) :
    ∀ (refs seen : List Str) (counts : List (Str × Nat)) (uses : List (Str × List Str)),
      cntGet (countBlockRefs d b refs seen counts uses).1 t =
        cntGet counts t +
          (if t ≠ b.name ∧ d t = true ∧ refs.any (fun x => x = t) = true ∧
              seen.any (fun x => x = t) = false then 1 else 0) := by
  intro refs
  induction refs with
  | nil =>
      intro seen counts uses
      simp [countBlockRefs]
  | cons ref refs ih =>
      intro seen counts uses
      by_cases href : ref = b.name
      · rw [countBlockRefs, if_pos href, ih]
        congr 1
        by_cases ht : t = ref
        · subst ht
          rw [if_neg (by intro hc; exact hc.1 href), if_neg (by intro hc; exact hc.1 href)]
        · congr 1
          simp [List.any_cons, show ¬ (ref = t) from fun he => ht he.symm]
      · rw [countBlockRefs, if_neg href]
        by_cases hcond : d ref = true ∧ ¬ seen.any (fun x => x = ref) = true
        · rw [if_pos hcond]
          dsimp only
          rw [ih]
          by_cases ht : t = ref
          · subst ht
            rw [cntGet_cntIncr_self]
            rw [if_neg (by
              intro hc
              have := hc.2.2.2
              rw [List.any_append] at this
              simp at this)]
            rw [if_pos ⟨href, hcond.1, by simp [List.any_cons],
              Bool.eq_false_iff.mpr hcond.2⟩]
          · rw [cntGet_cntIncr_other counts ref t ht]
            congr 1
            have hseen : ((seen ++ [ref]).any fun x => x = t) = (seen.any fun x => x = t) := by
              rw [List.any_append]
              simp [show ¬ (ref = t) from fun he => ht he.symm]
            have hrefs : ((ref :: refs).any fun x => x = t) = (refs.any fun x => x = t) := by
              simp [List.any_cons, show ¬ (ref = t) from fun he => ht he.symm]
            rw [hseen, hrefs]
        · rw [if_neg hcond, ih]
          congr 1
          by_cases ht : t = ref
          · subst ht
            rw [Classical.not_and_iff_or_not_not] at hcond
            rcases hcond with hd | hseen
            · rw [if_neg (fun hc => hd hc.2.1), if_neg (fun hc => hd hc.2.1)]
            · rw [Classical.not_not] at hseen
              rw [if_neg (fun hc => by rw [hc.2.2.2] at hseen; cases hseen),
                if_neg (fun hc => by rw [hc.2.2.2] at hseen; cases hseen)]
          · congr 1
            simp [List.any_cons, show ¬ (ref = t) from fun he => ht he.symm]


theorem countBlockRefs_uses_mono (d : Str → Bool) (b : Block) (a s : Str) :
    ∀ (refs seen : List Str) (counts : List (Str × Nat)) (uses : List (Str × List Str)),
      (mapGet uses a).any (fun x => x = s) = true →
      (mapGet (countBlockRefs d b refs seen counts uses).2 a).any (fun x => x = s) = true := by
  intro refs
  induction refs with
  | nil => intro seen counts uses h; simpa [countBlockRefs] using h
  | cons ref refs ih =>
      intro seen counts uses h
      by_cases href : ref = b.name
      · rw [countBlockRefs, if_pos href]
        exact ih seen counts uses h
      · rw [countBlockRefs, if_neg href]
        by_cases hcond : d ref = true ∧ ¬ seen.any (fun x => x = ref) = true
        · rw [if_pos hcond]
          dsimp only
          apply ih
          by_cases hbn : b.name ≠ []
          · rw [if_pos hbn, mapGet_usesAdd, h]
            rfl
          · rw [if_neg hbn]
            exact h
        · rw [if_neg hcond]
          exact ih seen counts uses h

theorem countBlockRefs_uses_adds (d : Str → Bool) (b : Block) (t : Str)
    (hbn : b.name ≠ []) (ht : t ≠ b.name) (hd : d t = true) :
    ∀ (refs seen : List Str) (counts : List (Str × Nat)) (uses : List (Str × List Str)),
      refs.any (fun x => x = t) = true →
      seen.any (fun x => x = t) = false →
      (mapGet (countBlockRefs d b refs seen counts uses).2 b.name).any
        (fun x => x = t) = true := by
  intro refs
  induction refs with
  | nil => intro seen counts uses h _; simp at h
  | cons ref refs ih =>
      intro seen counts uses hrefs hseen
      by_cases href : ref = b.name
      · rw [countBlockRefs, if_pos href]
        have hne : ¬ (ref = t) := fun he => ht (he.symm.trans href)
        apply ih seen counts uses ?_ hseen
        rw [List.any_cons] at hrefs
        rcases Bool.or_eq_true_iff.mp hrefs with h | h
        · exact absurd (of_decide_eq_true h) hne
        · exact h
      · rw [countBlockRefs, if_neg href]
        by_cases hcond : d ref = true ∧ ¬ seen.any (fun x => x = ref) = true
        · rw [if_pos hcond]
          dsimp only
          by_cases hrt : ref = t
          · subst hrt
            apply countBlockRefs_uses_mono
            rw [if_pos hbn, mapGet_usesAdd]
            simp
          · apply ih
            · rw [List.any_cons] at hrefs
              rcases Bool.or_eq_true_iff.mp hrefs with h | h
              · exact absurd (of_decide_eq_true h) hrt
              · exact h
            · rw [List.any_append, hseen]
              simp [hrt]
        · rw [if_neg hcond]
          apply ih seen counts uses ?_ hseen
          by_cases hrt : ref = t
          · exfalso
            subst hrt
            rw [Classical.not_and_iff_or_not_not] at hcond
            rcases hcond with h1 | h2
            · exact h1 hd
            · rw [Classical.not_not] at h2
              rw [h2] at hseen; cases hseen
          · rw [List.any_cons] at hrefs
            rcases Bool.or_eq_true_iff.mp hrefs with h | h
            · exact absurd (of_decide_eq_true h) hrt
            · exact h

theorem countBlockRefs_uses_rev (d : Str → Bool) (b : Block) (a s : Str) :
    ∀ (refs seen : List Str) (counts : List (Str × Nat)) (uses : List (Str × List Str)),
      (mapGet (countBlockRefs d b refs seen counts uses).2 a).any (fun x => x = s) = true →
      (mapGet uses a).any (fun x => x = s) = true ∨
        (a = b.name ∧ b.name ≠ [] ∧ d s = true ∧ s ≠ b.name ∧
          refs.any (fun x => x = s) = true) := by
  intro refs
  induction refs with
  | nil => intro seen counts uses h; left; simpa [countBlockRefs] using h
  | cons ref refs ih =>
      intro seen counts uses h
      by_cases href : ref = b.name
      · rw [countBlockRefs, if_pos href] at h
        rcases ih seen counts uses h with h1 | h2
        · exact Or.inl h1
        · refine Or.inr ⟨h2.1, h2.2.1, h2.2.2.1, h2.2.2.2.1, ?_⟩
          rw [List.any_cons, h2.2.2.2.2]
          simp
      · rw [countBlockRefs, if_neg href] at h
        by_cases hcond : d ref = true ∧ ¬ seen.any (fun x => x = ref) = true
        · rw [if_pos hcond] at h
          dsimp only at h
          rcases ih _ _ _ h with h1 | h2
          · by_cases hbn : b.name ≠ []
            · rw [if_pos hbn, mapGet_usesAdd] at h1
              rcases Bool.or_eq_true_iff.mp h1 with h3 | h4
              · exact Or.inl h3
              · rw [Bool.and_eq_true, decide_eq_true_eq, decide_eq_true_eq] at h4
                refine Or.inr ⟨h4.1, hbn, h4.2 ▸ hcond.1, h4.2 ▸ href, ?_⟩
                rw [List.any_cons]
                simp [h4.2]
            · rw [if_neg hbn] at h1
              exact Or.inl h1
          · refine Or.inr ⟨h2.1, h2.2.1, h2.2.2.1, h2.2.2.2.1, ?_⟩
            rw [List.any_cons, h2.2.2.2.2]
            simp
        · rw [if_neg hcond] at h
          rcases ih seen counts uses h with h1 | h2
          · exact Or.inl h1
          · refine Or.inr ⟨h2.1, h2.2.1, h2.2.2.1, h2.2.2.2.1, ?_⟩
            rw [List.any_cons, h2.2.2.2.2]
            simp


theorem usesAdd_keys (m : List (Str × List Str)) (a t : Str)
    (h : (m.map Prod.fst).Nodup) : ((usesAdd m a t).map Prod.fst).Nodup := by
  unfold usesAdd
  cases hany : m.any (fun kv => decide (kv.1 = a)) with
  | true =>
      rw [if_pos rfl]
      have : (m.map (fun kv =>
          if kv.1 = a then
            (kv.1, if kv.2.any (fun x => x = t) then kv.2 else kv.2 ++ [t])
          else kv)).map Prod.fst = m.map Prod.fst := by
        rw [List.map_map]
        apply List.map_congr_left
        intro kv _
        exact usesAdd_key_preserves a t kv
      rw [this]
      exact h
  | false =>
      rw [if_neg Bool.false_ne_true]
      rw [List.map_append]
      rw [List.nodup_append]
      refine ⟨h, by simp, ?_⟩
      intro x hx hx2
      simp only [List.map_cons, List.map_nil, List.mem_singleton] at hx2
      subst hx2
      rw [List.mem_map] at hx
      obtain ⟨kv, hkv, hfst⟩ := hx
      rw [List.any_eq_false] at hany
      exact hany kv hkv (by rw [decide_eq_true_eq]; exact hfst)

theorem countBlockRefs_keys (d : Str → Bool) (b : Block) :
    ∀ (refs seen : List Str) (counts : List (Str × Nat)) (uses : List (Str × List Str)),
      ((uses.map Prod.fst).Nodup) →
      (((countBlockRefs d b refs seen counts uses).2).map Prod.fst).Nodup := by
  intro refs
  induction refs with
  | nil => intro seen counts uses h; simpa [countBlockRefs] using h
  | cons ref refs ih =>
      intro seen counts uses h
      by_cases href : ref = b.name
      · rw [countBlockRefs, if_pos href]
        exact ih seen counts uses h
      · rw [countBlockRefs, if_neg href]
        by_cases hcond : d ref = true ∧ ¬ seen.any (fun x => x = ref) = true
        · rw [if_pos hcond]
          dsimp only
          apply ih
          by_cases hbn : b.name ≠ []
          · rw [if_pos hbn]
            exact usesAdd_keys _ _ _ h
          · rw [if_neg hbn]
            exact h
        · rw [if_neg hcond]
          exact ih seen counts uses h

theorem mapGet_of_mem_nodup (m : List (Str × List Str)) (akv : Str × List Str)
    (hnd : (m.map Prod.fst).Nodup) (hmem : akv ∈ m) : mapGet m akv.1 = akv.2 := by
  induction m with
  | nil => cases hmem
  | cons kv m ih =>
      rw [List.map_cons, List.nodup_cons] at hnd
      rcases List.mem_cons.mp hmem with rfl | hmem2
      · unfold mapGet
        rw [List.find?_cons]
        simp
      · have hne : kv.1 ≠ akv.1 := by
          intro he
          exact hnd.1 (he ▸ List.mem_map_of_mem Prod.fst hmem2)
        unfold mapGet
        rw [List.find?_cons]
        rw [decide_eq_false hne]
        exact ih hnd.2 hmem2

theorem buildCountsBase_cntGet_aux (blocks : List Block) (t : Str) :
    ∀ (bs : List Block) (st : List (Str × Nat) × List (Str × List Str)),
      cntGet (bs.foldl (fun st b =>
        countBlockRefs (definedIn blocks) b (blockRefsForCounts b) [] st.1 st.2) st).1 t =
      cntGet st.1 t + bs.countP (fun b => refsB blocks b t) := by
  intro bs
  induction bs with
  | nil => intro st; simp
  | cons b bs ih =>
      intro st
      rw [List.foldl_cons, ih, List.countP_cons, countBlockRefs_cntGet]
      have hind : (if t ≠ b.name ∧ definedIn blocks t = true ∧
          ((blockRefsForCounts b).any (fun x => x = t)) = true ∧
          (([] : List Str).any (fun x => x = t)) = false then (1:Nat) else 0) =
          (if refsB blocks b t = true then 1 else 0) := by
        by_cases h : refsB blocks b t = true
        · rw [if_pos h]
          simp only [refsB, Bool.decide_and, Bool.and_eq_true, decide_eq_true_eq] at h
          rw [if_pos ⟨h.1, h.2.1, h.2.2, by simp⟩]
        · rw [if_neg h, if_neg (fun hc => h (by
            simp only [refsB, Bool.decide_and, Bool.and_eq_true, decide_eq_true_eq]
            exact ⟨hc.1, hc.2.1, hc.2.2.1⟩))]
      rw [hind]
      omega

theorem buildCountsBase_cntGet (blocks : List Block) (t : Str) :
    cntGet (buildCountsBase blocks).1 t = rawCount blocks t := by
  unfold buildCountsBase rawCount
  rw [buildCountsBase_cntGet_aux]
  simp [cntGet]

theorem buildCountsBase_uses_mono (blocks : List Block) (a s : Str) :
    ∀ (bs : List Block) (st : List (Str × Nat) × List (Str × List Str)),
      (mapGet st.2 a).any (fun x => x = s) = true →
      (mapGet (bs.foldl (fun st b =>
        countBlockRefs (definedIn blocks) b (blockRefsForCounts b) [] st.1 st.2) st).2 a).any
          (fun x => x = s) = true := by
  intro bs
  induction bs with
  | nil => intro st h; exact h
  | cons b bs ih =>
      intro st h
      rw [List.foldl_cons]
      exact ih _ (countBlockRefs_uses_mono _ _ _ _ _ _ _ _ h)

theorem buildCountsBase_keys (blocks : List Block) :
    (((buildCountsBase blocks).2).map Prod.fst).Nodup := by
  unfold buildCountsBase
  suffices h : ∀ (bs : List Block) (st : List (Str × Nat) × List (Str × List Str)),
      ((st.2.map Prod.fst).Nodup) →
      (((bs.foldl (fun st b =>
        countBlockRefs (definedIn blocks) b (blockRefsForCounts b) [] st.1 st.2) st).2).map
          Prod.fst).Nodup by
    exact h blocks ([], []) (by simp)
  intro bs
  induction bs with
  | nil => intro st h; exact h
  | cons b bs ih =>
      intro st h
      rw [List.foldl_cons]
      exact ih _ (countBlockRefs_keys _ _ _ _ _ _ h)

theorem usesRel_mem (blocks : List Block) (a t : Str) (h : usesRel blocks a t = true) :
    (mapGet (buildCountsBase blocks).2 a).any (fun x => x = t) = true := by
  simp only [usesRel, Bool.decide_and, Bool.and_eq_true, decide_eq_true_eq] at h
  obtain ⟨hne, hex⟩ := h
  rw [List.any_eq_true] at hex
  obtain ⟨b, hbmem, hb⟩ := hex
  rw [Bool.and_eq_true, decide_eq_true_eq] at hb
  unfold buildCountsBase
  suffices haux : ∀ (bs : List Block) (st : List (Str × Nat) × List (Str × List Str)),
      (∃ b ∈ bs, b.name = a ∧ refsB blocks b t = true) →
      (mapGet ((bs.foldl (fun st b =>
        countBlockRefs (definedIn blocks) b (blockRefsForCounts b) [] st.1 st.2) st)).2 a).any
          (fun x => x = t) = true by
    exact haux blocks ([], []) ⟨b, hbmem, hb.1, of_decide_eq_true hb.2⟩
  intro bs
  induction bs with
  | nil =>
      intro st hw
      obtain ⟨b2, hb2, _⟩ := hw
      cases hb2
  | cons b2 bs ih =>
      intro st hw
      rw [List.foldl_cons]
      rcases hw with ⟨b3, hb3mem, hb3⟩
      rcases List.mem_cons.mp hb3mem with rfl | hmem2
      · apply buildCountsBase_uses_mono
        have hr := hb3.2
        simp only [refsB, Bool.decide_and, Bool.and_eq_true, decide_eq_true_eq] at hr
        rw [← hb3.1]
        exact countBlockRefs_uses_adds (definedIn blocks) b3 t
          (hb3.1 ▸ hne) hr.1 hr.2.1 _ [] st.1 st.2 hr.2.2 rfl
      · exact ih _ ⟨b3, hmem2, hb3⟩

theorem mem_usesRel (blocks : List Block) (a t : Str)
    (h : (mapGet (buildCountsBase blocks).2 a).any (fun x => x = t) = true) :
    usesRel blocks a t = true := by
  unfold buildCountsBase at h
  have haux : ∀ (bs : List Block) (st : List (Str × Nat) × List (Str × List Str)),
      (mapGet ((bs.foldl (fun st b =>
        countBlockRefs (definedIn blocks) b (blockRefsForCounts b) [] st.1 st.2) st)).2 a).any
          (fun x => x = t) = true →
      (mapGet st.2 a).any (fun x => x = t) = true ∨
        (a ≠ [] ∧ ∃ b ∈ bs, b.name = a ∧ refsB blocks b t = true) := by
    intro bs
    induction bs with
    | nil => intro st hm; exact Or.inl hm
    | cons b bs ih =>
        intro st hm
        rw [List.foldl_cons] at hm
        rcases ih _ hm with h1 | h2
        · rcases countBlockRefs_uses_rev _ _ _ _ _ _ _ _ h1 with h3 | h4
          · exact Or.inl h3
          · refine Or.inr ⟨h4.1 ▸ h4.2.1, b, List.mem_cons_self b bs, h4.1.symm, ?_⟩
            simp only [refsB, Bool.decide_and, Bool.and_eq_true, decide_eq_true_eq]
            exact ⟨h4.2.2.2.1, h4.2.2.1, h4.2.2.2.2⟩
        · exact Or.inr ⟨h2.1, h2.2.imp (fun b2 hb2 => ⟨List.mem_cons_of_mem b hb2.1, hb2.2⟩)⟩
  rcases haux blocks ([], []) h with h1 | h2
  · simp [mapGet] at h1
  · simp only [usesRel, Bool.decide_and, Bool.and_eq_true, decide_eq_true_eq]
    refine ⟨h2.1, ?_⟩
    rw [List.any_eq_true]
    obtain ⟨b, hbmem, hb⟩ := h2.2
    exact ⟨b, hbmem, by rw [Bool.and_eq_true, decide_eq_true_eq]; exact ⟨hb.1, decide_eq_true hb.2⟩⟩


theorem boostInner_mono (uses : List (Str × List Str)) (a : Str) :
    ∀ (vals : List Str) (c : List (Str × Nat)) (t : Str),
      cntGet c t ≤ cntGet (vals.foldl (fun cnts b =>
        if (mapGet uses b).any (fun x => x = a) then cntMax2 (cntMax2 cnts a) b
        else cnts) c) t := by
  intro vals
  induction vals with
  | nil => intro c t; exact Nat.le_refl _
  | cons v vs ih =>
      intro c t
      rw [List.foldl_cons]
      refine Nat.le_trans ?_ (ih _ t)
      by_cases hc : (mapGet uses v).any (fun x => x = a) = true
      · rw [if_pos hc]
        exact Nat.le_trans (cntGet_cntMax2_mono c a t) (cntGet_cntMax2_mono _ v t)
      · rw [if_neg hc]

theorem boostOuter_mono (uses : List (Str × List Str)) :
    ∀ (l : List (Str × List Str)) (c : List (Str × Nat)) (t : Str),
      cntGet c t ≤ cntGet (l.foldl (fun cnts akv => akv.2.foldl (fun cnts b =>
        if (mapGet uses b).any (fun x => x = akv.1) then cntMax2 (cntMax2 cnts akv.1) b
        else cnts) cnts) c) t := by
  intro l
  induction l with
  | nil => intro c t; exact Nat.le_refl _
  | cons akv l ih =>
      intro c t
      rw [List.foldl_cons]
      exact Nat.le_trans (boostInner_mono uses akv.1 akv.2 c t) (ih _ t)

theorem boostCycles_mono (uses : List (Str × List Str)) (counts : List (Str × Nat))
    (t : Str) : cntGet counts t ≤ cntGet (boostCycles uses counts) t := by
  unfold boostCycles
  exact boostOuter_mono uses uses counts t

theorem boostInner_untouched (uses : List (Str × List Str)) (a t : Str) :
    ∀ (vals : List Str) (c : List (Str × Nat)),
      (∀ b ∈ vals, (mapGet uses b).any (fun x => x = a) = true → t ≠ a ∧ t ≠ b) →
      cntGet (vals.foldl (fun cnts b =>
        if (mapGet uses b).any (fun x => x = a) then cntMax2 (cntMax2 cnts a) b
        else cnts) c) t = cntGet c t := by
  intro vals
  induction vals with
  | nil => intro c _; rfl
  | cons v vs ih =>
      intro c hv
      rw [List.foldl_cons]
      by_cases hc : (mapGet uses v).any (fun x => x = a) = true
      · rw [if_pos hc]
        rw [ih _ (fun b hb => hv b (List.mem_cons_of_mem v hb))]
        have hta := (hv v (List.mem_cons_self v vs) hc).1
        have htv := (hv v (List.mem_cons_self v vs) hc).2
        rw [cntGet_cntMax2, cntGet_cntMax2]
        rw [if_neg (fun hcc => htv hcc.1), if_neg (fun hcc => hta hcc.1)]
      · rw [if_neg hc]
        exact ih _ (fun b hb => hv b (List.mem_cons_of_mem v hb))

theorem boostCycles_untouched (uses : List (Str × List Str)) (counts : List (Str × Nat))
    (t : Str) (h : boostedB uses t = false) :
    cntGet (boostCycles uses counts) t = cntGet counts t := by
  unfold boostCycles
  simp only [boostedB, List.any_eq_false] at h
  suffices haux : ∀ (l : List (Str × List Str)) (c : List (Str × Nat)),
      (∀ akv ∈ l, ∀ b ∈ akv.2, (mapGet uses b).any (fun x => x = akv.1) = true →
        t ≠ akv.1 ∧ t ≠ b) →
      cntGet (l.foldl (fun cnts akv => akv.2.foldl (fun cnts b =>
        if (mapGet uses b).any (fun x => x = akv.1) then cntMax2 (cntMax2 cnts akv.1) b
        else cnts) cnts) c) t = cntGet c t by
    refine haux uses counts ?_
    intro akv hakv b hb hcond
    have h2 := h akv hakv
    rw [Bool.not_eq_true, List.any_eq_false] at h2
    have h3 := h2 b hb
    simp only [decide_eq_true_eq] at h3
    have h4 : ¬ (t = akv.1 ∨ t = b) := fun hor => h3 ⟨hcond, hor⟩
    exact ⟨fun he => h4 (Or.inl he), fun he => h4 (Or.inr he)⟩
  intro l
  induction l with
  | nil => intro c _; rfl
  | cons akv l ih =>
      intro c hl
      rw [List.foldl_cons]
      rw [ih _ (fun akv2 hm => hl akv2 (List.mem_cons_of_mem akv hm))]
      exact boostInner_untouched uses akv.1 t akv.2 c
        (hl akv (List.mem_cons_self akv l))

theorem boostInner_pair (uses : List (Str × List Str)) (a b : Str)
    (hcond : (mapGet uses b).any (fun x => x = a) = true) :
    ∀ (vals : List Str) (c : List (Str × Nat)), b ∈ vals →
      2 ≤ cntGet (vals.foldl (fun cnts v =>
        if (mapGet uses v).any (fun x => x = a) then cntMax2 (cntMax2 cnts a) v
        else cnts) c) a ∧
      2 ≤ cntGet (vals.foldl (fun cnts v =>
        if (mapGet uses v).any (fun x => x = a) then cntMax2 (cntMax2 cnts a) v
        else cnts) c) b := by
  intro vals
  induction vals with
  | nil => intro c hb; cases hb
  | cons v vs ih =>
      intro c hb
      rw [List.foldl_cons]
      rcases List.mem_cons.mp hb with rfl | hmem
      · rw [if_pos hcond]
        constructor
        · refine Nat.le_trans ?_ (boostInner_mono uses a vs _ a)
          exact Nat.le_trans (cntGet_cntMax2_self c a) (cntGet_cntMax2_mono _ b a)
        · refine Nat.le_trans ?_ (boostInner_mono uses a vs _ b)
          exact cntGet_cntMax2_self _ b
      · exact ih _ hmem

theorem boostCycles_pair (uses : List (Str × List Str)) (akv : Str × List Str) (b : Str)
    (hmem : akv ∈ uses) (hb : b ∈ akv.2)
    (hcond : (mapGet uses b).any (fun x => x = akv.1) = true) (counts : List (Str × Nat)) :
    2 ≤ cntGet (boostCycles uses counts) akv.1 ∧
      2 ≤ cntGet (boostCycles uses counts) b := by
  unfold boostCycles
  suffices haux : ∀ (l : List (Str × List Str)) (c : List (Str × Nat)), akv ∈ l →
      2 ≤ cntGet (l.foldl (fun cnts akv => akv.2.foldl (fun cnts v =>
        if (mapGet uses v).any (fun x => x = akv.1) then cntMax2 (cntMax2 cnts akv.1) v
        else cnts) cnts) c) akv.1 ∧
      2 ≤ cntGet (l.foldl (fun cnts akv => akv.2.foldl (fun cnts v =>
        if (mapGet uses v).any (fun x => x = akv.1) then cntMax2 (cntMax2 cnts akv.1) v
        else cnts) cnts) c) b by
    exact haux uses counts hmem
  intro l
  induction l with
  | nil => intro c hm; cases hm
  | cons akv2 l ih =>
      intro c hm
      rw [List.foldl_cons]
      rcases List.mem_cons.mp hm with rfl | hmem2
      · have hp := boostInner_pair uses akv.1 b hcond akv.2 c hb
        exact ⟨Nat.le_trans hp.1 (boostOuter_mono uses l _ _),
          Nat.le_trans hp.2 (boostOuter_mono uses l _ _)⟩
      · exact ih _ hmem2


theorem addType_mem (st : List Str) (t r : Str) (hr : r ∈ addType st t) :
    r ∈ st ∨ (r = t ∧ hasDot t = false) := by
  unfold addType at hr
  split at hr
  · exact Or.inl hr
  · next hd =>
      split at hr
      · rcases List.mem_append.mp hr with h1 | h2
        · exact Or.inl h1
        · rw [List.mem_singleton] at h2
          exact Or.inr ⟨h2, Bool.eq_false_iff.mpr hd⟩
      · exact Or.inl hr

theorem addType_fold_dotfree : ∀ (l : List Str) (acc : List Str),
    (∀ r ∈ acc, hasDot r = false) → ∀ r ∈ l.foldl addType acc, hasDot r = false := by
  intro l
  induction l with
  | nil => intro acc h; exact h
  | cons x l ih =>
      intro acc h
      rw [List.foldl_cons]
      apply ih
      intro r hr
      rcases addType_mem acc x r hr with h1 | h2
      · exact h r h1
      · rw [h2.1]
        exact h2.2

theorem extractFieldTypes_dotfree (b : Block) :
    ∀ r ∈ ExtractFieldTypes b, hasDot r = false := by
  unfold ExtractFieldTypes
  split
  · intro r hr; cases hr
  · exact addType_fold_dotfree _ _ (addType_fold_dotfree _ _ (addType_fold_dotfree _ _
      (by intro r hr; cases hr)))

theorem boosted_rawCount_pos (blocks : List Block) (t : Str)
    (h : boostedB (buildCountsBase blocks).2 t = true) : 1 ≤ rawCount blocks t := by
  simp only [boostedB, List.any_eq_true, decide_eq_true_eq] at h
  obtain ⟨akv, hakv, v, hv, hcond, hor⟩ := h
  rcases hor with rfl | rfl
  · obtain ⟨x, hx, hxe⟩ := hcond
    have hcond2 : ((mapGet (buildCountsBase blocks).2 v).any
        (fun x => x = akv.1)) = true :=
      List.any_eq_true.mpr ⟨x, hx, decide_eq_true hxe⟩
    have hu := mem_usesRel blocks v akv.1 hcond2
    simp only [usesRel, Bool.decide_and, Bool.and_eq_true, decide_eq_true_eq] at hu
    obtain ⟨_, hex⟩ := hu
    rw [List.any_eq_true] at hex
    obtain ⟨b, hbmem, hb⟩ := hex
    rw [Bool.and_eq_true, decide_eq_true_eq] at hb
    unfold rawCount
    rw [Nat.succ_le_iff, List.countP_pos_iff]
    exact ⟨b, hbmem, of_decide_eq_true hb.2⟩
  · have hget := mapGet_of_mem_nodup (buildCountsBase blocks).2 akv
      (buildCountsBase_keys blocks) hakv
    have hmem : (mapGet (buildCountsBase blocks).2 akv.1).any (fun x => x = t) = true := by
      rw [hget, List.any_eq_true]
      exact ⟨t, hv, by simp⟩
    have hu := mem_usesRel blocks akv.1 t hmem
    simp only [usesRel, Bool.decide_and, Bool.and_eq_true, decide_eq_true_eq] at hu
    obtain ⟨_, hex⟩ := hu
    rw [List.any_eq_true] at hex
    obtain ⟨b, hbmem, hb⟩ := hex
    rw [Bool.and_eq_true, decide_eq_true_eq] at hb
    unfold rawCount
    rw [Nat.succ_le_iff, List.countP_pos_iff]
    exact ⟨b, hbmem, of_decide_eq_true hb.2⟩

/-- C3 (amended): reference-counting rules of `BuildRefCounts`.  The
base count of every type equals the number of distinct blocks that
reference it (so a type referenced by two declarations counts at least
2, and one referenced twice by the same declaration counts 1); the
cycle boost never touches a type outside a mutual pair and never
lowers a count; a type referenced by no other declaration (in
particular one that only references itself) keeps count 0; two types
that reference each other both reach count at least 2; and field
references extracted from message or extend blocks never contain a
dot, so a package-qualified field reference increments nothing (a
dotted RPC reference can still increment a local type that is itself
declared with the identical dotted name, see the counterexample). -/
theorem c3_refcount_rules (blocks : List Block) :
    (∀ t, cntGet (buildCountsBase blocks).1 t = rawCount blocks t) ∧
    (∀ t, 2 ≤ rawCount blocks t → 2 ≤ cntGet (BuildRefCounts blocks) t) ∧
    (∀ t, boostedB (buildCountsBase blocks).2 t = false →
      cntGet (BuildRefCounts blocks) t = rawCount blocks t) ∧
    (∀ t, rawCount blocks t = 0 → cntGet (BuildRefCounts blocks) t = 0) ∧
    (∀ a b, usesRel blocks a b = true → usesRel blocks b a = true →
      2 ≤ cntGet (BuildRefCounts blocks) a ∧ 2 ≤ cntGet (BuildRefCounts blocks) b) ∧
    (∀ b r, r ∈ ExtractFieldTypes b → hasDot r = false) := by
  have hbase := buildCountsBase_cntGet blocks
  have hbuild : BuildRefCounts blocks =
      boostCycles (buildCountsBase blocks).2 (buildCountsBase blocks).1 := rfl
  refine ⟨hbase, ?_, ?_, ?_, ?_, extractFieldTypes_dotfree⟩
  · intro t h
    rw [hbuild]
    exact Nat.le_trans (by rw [hbase t]; exact h) (boostCycles_mono _ _ t)
  · intro t h
    rw [hbuild, boostCycles_untouched _ _ t h]
    exact hbase t
  · intro t h
    cases hb : boostedB (buildCountsBase blocks).2 t with
    | false =>
        rw [hbuild, boostCycles_untouched _ _ t hb, hbase t]
        exact h
    | true =>
        have := boosted_rawCount_pos blocks t hb
        omega
  · intro a b hab hba
    have hmem1 := usesRel_mem blocks a b hab
    have hmem2 := usesRel_mem blocks b a hba
    cases hf : (buildCountsBase blocks).2.find? (fun kv => decide (kv.1 = a)) with
    | none =>
        exfalso
        unfold mapGet at hmem1
        rw [hf] at hmem1
        simp at hmem1
    | some kv =>
        have hk := List.find?_some hf
        rw [decide_eq_true_eq] at hk
        have hkmem := List.mem_of_find?_eq_some hf
        have hget : mapGet (buildCountsBase blocks).2 a = kv.2 := by
          unfold mapGet
          rw [hf]
          rfl
        have hbkv : b ∈ kv.2 := by
          rw [hget, List.any_eq_true] at hmem1
          obtain ⟨x, hx, he⟩ := hmem1
          rw [decide_eq_true_eq] at he
          exact he ▸ hx
        have hcond : (mapGet (buildCountsBase blocks).2 b).any
            (fun x => x = kv.1) = true := by
          rw [hk]
          exact hmem2
        have hp := boostCycles_pair (buildCountsBase blocks).2 kv b hkmem hbkv hcond
          (buildCountsBase blocks).1
        rw [hbuild]
        exact ⟨hk ▸ hp.1, hp.2⟩


/-- C3 witness: the amended rules applied to `c3WitnessBlocks`: the
mutual pair `A`, `B` is boosted to 2 although each raw count is 1, and
the unreferenced `C` keeps count 0. -/
theorem c3_refcount_rules_witness :
    cntGet (buildCountsBase c3WitnessBlocks).1 (strLit "B") =
      rawCount c3WitnessBlocks (strLit "B") ∧
    rawCount c3WitnessBlocks (strLit "A") = 1 ∧
    2 ≤ cntGet (BuildRefCounts c3WitnessBlocks) (strLit "A") ∧
    2 ≤ cntGet (BuildRefCounts c3WitnessBlocks) (strLit "B") ∧
    cntGet (BuildRefCounts c3WitnessBlocks) (strLit "C") = 0 := by
  obtain ⟨h1, _, _, h4, h5, _⟩ := c3_refcount_rules c3WitnessBlocks
  have hp := h5 (strLit "A") (strLit "B") (by decide) (by decide)
  exact ⟨h1 (strLit "B"), by decide, hp.1, hp.2, h4 (strLit "C") (by decide)⟩


end Protosort
